import Mathlib

/-!
# chelm: test value generation (`internal/chelm/values.go`)

A shallow embedding of `values.go` and of the library calls it makes, followed by
theorems about the reference resolver, the layered merge and the pipeline.

Conventions of the embedding

* Go strings are modelled by `String`; a Go string that is not valid UTF-8 has no
  counterpart here.
* A Go result pair `(T, error)` is modelled by a pair whose second component is
  `Option GoError` (`none` for a nil error); a nil map is `none`.
* Maps are modelled as values: this reads a call whose input layers share no map
  object with one another or with an earlier call.  What a call does to the map objects
  themselves is read on a second model, of maps as references, further down.
* Library functions that `values.go` calls are embedded from their documented
  behaviour.  Where a library consults a large table (Unicode case mapping,
  printable runes) or another parser (RFC 3986 authorities), the table is a field of
  `Deps`, and every theorem holds for every choice of those fields.
-/

namespace Chelm

/-! ## Library tables taken as parameters -/

/-- Tables of the Go standard library that the embedding does not spell out. -/
structure Deps where
  /-- The value of unicode.ToLower on runes above U+007F. -/
  unicodeLower : Char → Char
  /-- The value of strconv.IsPrint on runes above U+00FF. -/
  isPrintTable : Char → Bool
  /-- Whether url.Parse accepts "//" followed by the name and reports the name as host. -/
  validAuthority : String → Bool

/-! ## Constants of `values.go` -/

def DefaultTestRegistry : String := "cgr.test"
def DefaultTestRepository : String := "chainguard/test"
def DefaultTestTag : String := "v0.0.0"

/-! ## Errors -/

/-- A Go error: its message and the messages of the errors it wraps, outermost first. -/
structure GoError where
  msg : String
  chain : List String
deriving DecidableEq, Repr

/-- An error made by fmt.Errorf without a wrapping verb, or by errors.New. -/
def GoError.new (msg : String) : GoError := ⟨msg, []⟩

/-- An error made by fmt.Errorf whose format string is a text followed by the wrapping verb. -/
def GoError.wrap (text : String) (inner : GoError) : GoError :=
  ⟨text ++ inner.msg, inner.msg :: inner.chain⟩

/-! ## strings, strconv, fmt -/

/-- The digits used by the hexadecimal verbs of fmt and by strconv. -/
def lowerhex : List Char := "0123456789abcdef".data

def hexDigit (n : Nat) : Char := lowerhex.getD n '0'

/-- The rune mapping of strings.ToLower: ASCII letters by offset, other runes by table. -/
def toLowerRune (L : Deps) (r : Char) : Char :=
  if r.toNat ≤ 0x7F then
    if 'A'.toNat ≤ r.toNat ∧ r.toNat ≤ 'Z'.toNat then Char.ofNat (r.toNat + 32) else r
  else L.unicodeLower r

/-- Go strings.ToLower. -/
def ToLower (L : Deps) (s : String) : String := ⟨s.data.map (toLowerRune L)⟩

/-- Go strconv.IsPrint. -/
def IsPrint (L : Deps) (r : Char) : Bool :=
  if r.toNat ≤ 0xFF then
    if 0x20 ≤ r.toNat ∧ r.toNat ≤ 0x7E then true
    else if 0xA1 ≤ r.toNat ∧ r.toNat ≤ 0xFF then r.toNat != 0xAD
    else false
  else L.isPrintTable r

def backslash : Char := Char.ofNat 92
def dquote : Char := Char.ofNat 34

/-- The hexadecimal digits of n, most significant first, in the given number of places. -/
def hexPlaces (places n : Nat) : List Char :=
  (List.range places).map (fun i => hexDigit ((n >>> (4 * (places - 1 - i))) % 16))

/-- The function appendEscapedRune of strconv, for the double quote and neither
ASCII-only nor graphic-only mode. -/
def escapeRune (L : Deps) (r : Char) : List Char :=
  if r = dquote ∨ r = backslash then [backslash, r]
  else if IsPrint L r then [r]
  else if r.toNat = 7 then [backslash, 'a']
  else if r.toNat = 8 then [backslash, 'b']
  else if r.toNat = 12 then [backslash, 'f']
  else if r.toNat = 10 then [backslash, 'n']
  else if r.toNat = 13 then [backslash, 'r']
  else if r.toNat = 9 then [backslash, 't']
  else if r.toNat = 11 then [backslash, 'v']
  else if r.toNat < 0x20 ∨ r.toNat = 0x7F then backslash :: 'x' :: hexPlaces 2 r.toNat
  else if r.toNat < 0x10000 then backslash :: 'u' :: hexPlaces 4 r.toNat
  else backslash :: 'U' :: hexPlaces 8 r.toNat

/-- Go strconv.Quote, which the verb %q of fmt applies to a string. -/
def Quote (L : Deps) (s : String) : String :=
  ⟨dquote :: (s.data.flatMap (escapeRune L) ++ [dquote])⟩

/-- The UTF-8 encoding of one rune. -/
def utf8Encode (c : Char) : List Nat :=
  let n := c.toNat
  if n < 0x80 then [n]
  else if n < 0x800 then [0xC0 + n / 64, 0x80 + n % 64]
  else if n < 0x10000 then [0xE0 + n / 4096, 0x80 + (n / 64) % 64, 0x80 + n % 64]
  else [0xF0 + n / 262144, 0x80 + (n / 4096) % 64, 0x80 + (n / 64) % 64, 0x80 + n % 64]

/-- The bytes of a Go string. -/
def bytesOf (s : String) : List Nat := s.data.flatMap utf8Encode

/-- The verb %x of fmt on a byte slice: two lower-case digits per byte. -/
def hexEncode (bs : List Nat) : String :=
  ⟨bs.flatMap (fun b => [hexDigit (b / 16), hexDigit (b % 16)])⟩

/-! ## crypto/sha256 -/

namespace Sha256

/-- The round constants, four to a row. -/
def K : List Nat := List.flatten [
  [0x428a2f98, 0x71374491, 0xb5c0fbcf, 0xe9b5dba5],
  [0x3956c25b, 0x59f111f1, 0x923f82a4, 0xab1c5ed5],
  [0xd807aa98, 0x12835b01, 0x243185be, 0x550c7dc3],
  [0x72be5d74, 0x80deb1fe, 0x9bdc06a7, 0xc19bf174],
  [0xe49b69c1, 0xefbe4786, 0x0fc19dc6, 0x240ca1cc],
  [0x2de92c6f, 0x4a7484aa, 0x5cb0a9dc, 0x76f988da],
  [0x983e5152, 0xa831c66d, 0xb00327c8, 0xbf597fc7],
  [0xc6e00bf3, 0xd5a79147, 0x06ca6351, 0x14292967],
  [0x27b70a85, 0x2e1b2138, 0x4d2c6dfc, 0x53380d13],
  [0x650a7354, 0x766a0abb, 0x81c2c92e, 0x92722c85],
  [0xa2bfe8a1, 0xa81a664b, 0xc24b8b70, 0xc76c51a3],
  [0xd192e819, 0xd6990624, 0xf40e3585, 0x106aa070],
  [0x19a4c116, 0x1e376c08, 0x2748774c, 0x34b0bcb5],
  [0x391c0cb3, 0x4ed8aa4a, 0x5b9cca4f, 0x682e6ff3],
  [0x748f82ee, 0x78a5636f, 0x84c87814, 0x8cc70208],
  [0x90befffa, 0xa4506ceb, 0xbef9a3f7, 0xc67178f2]]

def init : List Nat :=
  [0x6a09e667, 0xbb67ae85, 0x3c6ef372, 0xa54ff53a, 0x510e527f, 0x9b05688c, 0x1f83d9ab, 0x5be0cd19]

/-- Reduction to a 32-bit word. -/
def w32 (x : Nat) : Nat := x % 2 ^ 32

/-- Rotation of a 32-bit word to the right. -/
def rotr (x n : Nat) : Nat := w32 ((x >>> n) ||| (x <<< (32 - n)))

/-- Bitwise complement of a 32-bit word. -/
def not32 (x : Nat) : Nat := 2 ^ 32 - 1 - x

/-- The padded message: 0x80, zero bytes up to 56 modulo 64, and the length in bits as
eight big-endian bytes. -/
def pad (msg : List Nat) : List Nat :=
  let len := msg.length
  let zeros := (64 - (len + 9) % 64) % 64
  msg ++ [0x80] ++ List.replicate zeros 0 ++
    (List.range 8).map (fun i => ((len * 8) >>> (8 * (7 - i))) % 256)

/-- A big-endian word. -/
def word (bs : List Nat) : Nat := bs.foldl (fun acc b => acc * 256 + b) 0

def blockWords (blk : List Nat) : List Nat :=
  (List.range 16).map (fun i => word ((blk.drop (4 * i)).take 4))

/-- The message schedule of one block: 16 words extended to 64. -/
def schedule (ws : List Nat) : List Nat :=
  (List.range 48).foldl (fun w t =>
    let i := t + 16
    let w15 := w.getD (i - 15) 0
    let w2 := w.getD (i - 2) 0
    let s0 := rotr w15 7 ^^^ rotr w15 18 ^^^ (w15 >>> 3)
    let s1 := rotr w2 17 ^^^ rotr w2 19 ^^^ (w2 >>> 10)
    w ++ [w32 (w.getD (i - 16) 0 + s0 + w.getD (i - 7) 0 + s1)]) ws

/-- One round of the compression function on the working variables a..h. -/
def round (st : List Nat) (kw : Nat × Nat) : List Nat :=
  match st with
  | [a, b, c, d, e, f, g, h] =>
    let S1 := rotr e 6 ^^^ rotr e 11 ^^^ rotr e 25
    let ch := (e &&& f) ^^^ (not32 e &&& g)
    let t1 := w32 (h + S1 + ch + kw.1 + kw.2)
    let S0 := rotr a 2 ^^^ rotr a 13 ^^^ rotr a 22
    let maj := (a &&& b) ^^^ (a &&& c) ^^^ (b &&& c)
    let t2 := w32 (S0 + maj)
    [w32 (t1 + t2), a, b, c, w32 (d + t1), e, f, g]
  | _ => st

def compress (h : List Nat) (blk : List Nat) : List Nat :=
  let w := schedule (blockWords blk)
  let st := (K.zip w).foldl round h
  List.zipWith (fun x y => w32 (x + y)) h st

/-- Go sha256.Sum256: the 32 bytes of the SHA-256 checksum of the message. -/
def Sum256 (msg : List Nat) : List Nat :=
  let p := pad msg
  let hs := (List.range (p.length / 64)).foldl
    (fun h i => compress h ((p.drop (64 * i)).take 64)) init
  hs.flatMap (fun x => (List.range 4).map (fun i => (x >>> (8 * (3 - i))) % 256))

end Sha256

/-! ## `TestDigest` -/

/-- The function TestDigest of values.go. The digest.Digest it returns is the string
made by digest.NewDigestFromBytes: the algorithm, a colon and the checksum in
hexadecimal; its String method returns that string. -/
def TestDigest (imageID : String) : String :=
  let h := Sha256.Sum256 (bytesOf imageID)
  "sha256" ++ ":" ++ hexEncode h

/-! ## path -/

/-- The elements of a path between its slashes. -/
def splitSlash : List Char → List (List Char)
  | [] => [[]]
  | c :: cs =>
    if c = '/' then [] :: splitSlash cs
    else match splitSlash cs with
      | [] => [[c]]
      | p :: ps => (c :: p) :: ps

/-- One element processed by path.Clean. The state is the stack of elements written so
far, innermost first, and the number of elements at its bottom that a dot-dot element
may not remove. -/
def cleanStep (rooted : Bool) (st : List (List Char) × Nat) (e : List Char) :
    List (List Char) × Nat :=
  if e = [] ∨ e = ['.'] then st
  else if e = ['.', '.'] then
    if st.2 < st.1.length then (st.1.tail, st.2)
    else if rooted then st
    else (e :: st.1, st.1.length + 1)
  else (e :: st.1, st.2)

/-- Go path.Clean. -/
def Clean (path : String) : String :=
  if path = "" then "."
  else
    let rooted := path.data.head? == some '/'
    let elems := ((splitSlash path.data).foldl (cleanStep rooted) ([], 0)).1.reverse
    let body : List Char := List.intercalate ['/'] elems
    let out : List Char := if rooted then '/' :: body else body
    if out = [] then "." else ⟨out⟩

/-- Go path.Join. -/
def Join (elem : List String) : String :=
  if elem.all (fun e => e = "") then ""
  else
    Clean (elem.foldl (fun buf e =>
      if buf ≠ "" ∨ e ≠ "" then (if buf ≠ "" then buf ++ "/" ++ e else e) else buf) "")

/-! ## go-containerregistry `name` -/

def DefaultRegistry : String := "index.docker.io"
def defaultRegistryAlias : String := "docker.io"
def defaultNamespace : String := "library"

/-- The type name.Registry. -/
structure Registry where
  insecure : Bool
  registry : String
deriving DecidableEq, Repr

def Registry.RegistryStr (r : Registry) : String := r.registry

def Registry.Name (r : Registry) : String := r.RegistryStr

/-- The function name.NewRegistry with no options: the name must pass checkRegistry;
the empty name and the alias docker.io become the default registry. -/
def NewRegistry (L : Deps) (name : String) : Registry × Option GoError :=
  if L.validAuthority name = false then
    (⟨false, ""⟩,
      some (GoError.new ("registries must be valid RFC 3986 URI authorities: " ++ name)))
  else
    let name1 := if name = "" then DefaultRegistry else name
    let name2 := if name1 = defaultRegistryAlias then DefaultRegistry else name1
    (⟨false, name2⟩, none)

/-- The type name.Repository. -/
structure Repository where
  Registry : Registry
  repository : String
deriving DecidableEq, Repr

/-- The method Registry.Repo. -/
def Registry.Repo (r : Registry) (repo : List String) : Repository :=
  ⟨r, Join repo⟩

def hasImplicitNamespace (repo : String) (reg : Registry) : Bool :=
  !(repo.data.contains '/') && reg.RegistryStr == DefaultRegistry

def Repository.RegistryStr (r : Repository) : String := r.Registry.RegistryStr

def Repository.RepositoryStr (r : Repository) : String :=
  if hasImplicitNamespace r.repository r.Registry then
    defaultNamespace ++ "/" ++ r.repository
  else r.repository

def Repository.Name (r : Repository) : String :=
  let regName := r.Registry.Name
  if regName ≠ "" then regName ++ "/" ++ r.RepositoryStr
  else r.RepositoryStr

/-- The type name.Digest, as made by Repository.Digest. -/
structure Digest where
  Repository : Repository
  digest : String
deriving DecidableEq, Repr

def Repository.Digest (r : Repository) (identifier : String) : Digest := ⟨r, identifier⟩

def Digest.DigestStr (d : Digest) : String := d.digest

def Digest.Name (d : Digest) : String := d.Repository.Name ++ "@" ++ d.DigestStr

/-! ## chainguard `helm/images`: tokens -/

/-- The type images.RefField: the seven markers and any other value of the type. -/
inductive RefField where
  | Registry
  | Repo
  | RegistryRepo
  | Tag
  | Digest
  | PseudoTag
  | Ref
  | other (code : Nat)
deriving DecidableEq, Repr

/-- An element of images.TokenList: a field marker, or a token of another type, which
is given by the text fmt.Sprint prints for it (for a literal, its text). -/
inductive Token where
  | field (f : RefField)
  | text (s : String)
deriving DecidableEq, Repr

abbrev TokenList := List Token

/-! ## The resolver of `values.go` -/

def resolveField (f : RefField) (imageID : String) (repo : Repository) : String :=
  let d := TestDigest imageID
  match f with
  | .Registry => repo.RegistryStr
  | .Repo => repo.RepositoryStr
  | .RegistryRepo => repo.Name
  | .Tag => DefaultTestTag
  | .Digest => d
  | .PseudoTag => DefaultTestTag ++ "@" ++ d
  | .Ref => (repo.Digest d).Name
  | .other _ => ""

/-- The type images.WalkFunc; the resolved value is a string here. -/
abbrev WalkFunc := String → TokenList → String × Option GoError

/-- The function testResolver of values.go; the strings.Builder is the accumulator
of the fold. -/
def testResolver (L : Deps) (registry : Registry) : WalkFunc :=
  fun imageID tokens =>
    let repo := registry.Repo [DefaultTestRepository, ToLower L imageID]
    let sb := tokens.foldl (fun sb tok =>
      match tok with
      | .field v => sb ++ resolveField v imageID repo
      | .text v => sb ++ v) ""
    (sb, none)

/-! ## Configuration values -/

mutual
/-- A value held in a map[string]any: nil, a scalar, a sequence or a nested map. A number
is an integer here; the merge never looks inside a scalar or a sequence. -/
inductive Value where
  | null
  | bool (b : Bool)
  | int (i : Int)
  | str (s : String)
  | seq (xs : Items)
  | map (m : Entries)
/-- The elements of a sequence. -/
inductive Items where
  | nil
  | cons (v : Value) (vs : Items)
/-- The entries of a map[string]any, read by the first entry of a key. -/
inductive Entries where
  | nil
  | cons (k : String) (v : Value) (rest : Entries)
end

mutual
def Value.decEq : (a b : Value) → Decidable (a = b)
  | .null, .null => isTrue rfl
  | .bool a, .bool b =>
    if h : a = b then isTrue (by rw [h]) else isFalse (by intro e; cases e; exact h rfl)
  | .int a, .int b =>
    if h : a = b then isTrue (by rw [h]) else isFalse (by intro e; cases e; exact h rfl)
  | .str a, .str b =>
    if h : a = b then isTrue (by rw [h]) else isFalse (by intro e; cases e; exact h rfl)
  | .seq a, .seq b =>
    match Items.decEq a b with
    | isTrue h => isTrue (by rw [h])
    | isFalse h => isFalse (by intro e; cases e; exact h rfl)
  | .map a, .map b =>
    match Entries.decEq a b with
    | isTrue h => isTrue (by rw [h])
    | isFalse h => isFalse (by intro e; cases e; exact h rfl)
  | .null, .bool _ | .null, .int _ | .null, .str _ | .null, .seq _ | .null, .map _
  | .bool _, .null | .bool _, .int _ | .bool _, .str _ | .bool _, .seq _ | .bool _, .map _
  | .int _, .null | .int _, .bool _ | .int _, .str _ | .int _, .seq _ | .int _, .map _
  | .str _, .null | .str _, .bool _ | .str _, .int _ | .str _, .seq _ | .str _, .map _
  | .seq _, .null | .seq _, .bool _ | .seq _, .int _ | .seq _, .str _ | .seq _, .map _
  | .map _, .null | .map _, .bool _ | .map _, .int _ | .map _, .str _ | .map _, .seq _ =>
    isFalse (by intro e; cases e)
def Items.decEq : (a b : Items) → Decidable (a = b)
  | .nil, .nil => isTrue rfl
  | .cons a as, .cons b bs =>
    match Value.decEq a b, Items.decEq as bs with
    | isTrue h, isTrue h2 => isTrue (by rw [h, h2])
    | isFalse h, _ => isFalse (by intro e; cases e; exact h rfl)
    | _, isFalse h => isFalse (by intro e; cases e; exact h rfl)
  | .nil, .cons _ _ | .cons _ _, .nil => isFalse (by intro e; cases e)
def Entries.decEq : (a b : Entries) → Decidable (a = b)
  | .nil, .nil => isTrue rfl
  | .cons k a as, .cons j b bs =>
    if hk : k = j then
      match Value.decEq a b, Entries.decEq as bs with
      | isTrue h, isTrue h2 => isTrue (by rw [hk, h, h2])
      | isFalse h, _ => isFalse (by intro e; cases e; exact h rfl)
      | _, isFalse h => isFalse (by intro e; cases e; exact h rfl)
    else isFalse (by intro e; cases e; exact hk rfl)
  | .nil, .cons _ _ _ | .cons _ _ _, .nil => isFalse (by intro e; cases e)
end

instance : DecidableEq Value := Value.decEq
instance : DecidableEq Items := Items.decEq
instance : DecidableEq Entries := Entries.decEq

/-- A scalar: nil, a bool, a number or a string. -/
def Value.isScalar : Value → Bool
  | .null | .bool _ | .int _ | .str _ => true
  | _ => false

def Value.isSeq : Value → Bool
  | .seq _ => true
  | _ => false

def Value.isMap : Value → Bool
  | .map _ => true
  | _ => false

/-- The entries from a list of pairs. -/
def Entries.ofList : List (String × Value) → Entries
  | [] => .nil
  | (k, v) :: rest => .cons k v (Entries.ofList rest)

/-- Reading a map at a key (reflect MapIndex): none when the key is not in the map. -/
def Entries.lookup (key : String) : Entries → Option Value
  | .nil => none
  | .cons k v rest => if k = key then some v else Entries.lookup key rest

/-- Writing a map at a key (reflect SetMapIndex). -/
def Entries.set (key : String) (v : Value) : Entries → Entries
  | .nil => .cons key v .nil
  | .cons k w rest =>
    if k = key then .cons k v rest else .cons k w (Entries.set key v rest)

/-- Whether a map has no entry (the test isEmptyValue of mergo on a map). -/
def Entries.isEmpty : Entries → Bool
  | .nil => true
  | .cons _ _ _ => false

/-- A configuration layer: a map[string]any, which may be nil. -/
abbrev Layer := Option Entries

/-- Reading a layer at a key; a nil map has no key. -/
def Layer.lookup (key : String) (layer : Layer) : Option Value :=
  match layer with
  | none => none
  | some m => m.lookup key

/-! ## dario.cat/mergo

`mergo.Merge(&dst, src, mergo.WithOverride)` on two values of type `map[string]any`
runs the map case of `deepMerge` with `overwrite` set and every other option off.
For each key of `src`, with `srcElement` and `dstElement` the values of the two maps:

* a nil `srcElement` is stored at the key, as `overwrite` is set, and the loop
  continues;
* when `srcElement` is a map, `deepMerge` is first called on the two elements; it
  changes `dstElement` only when that is a map too, and then in place.  When
  afterwards `dstElement` is a map that is not empty (`isEmptyValue` is false), the
  loop continues;
* in every other case `dst` is set at the key to `srcElement`.

No step returns an error for values of the kinds of `Value`.
-/

/-- The loop over the keys of src in the map case of deepMerge. The keys already
visited are in seen: the loop runs once for each key of src. -/
def deepMergeKeys (seen : List String) (dst : Entries) : Entries → Entries
  | .nil => dst
  | .cons key srcElement rest =>
    let dst1 :=
      if key ∈ seen then dst
      else
        match srcElement with
        | .null => dst.set key .null
        | .map sm =>
          match dst.lookup key with
          | some (.map dm) =>
            let merged := deepMergeKeys [] dm sm
            if merged.isEmpty then dst.set key (.map sm) else dst.set key (.map merged)
          | _ => dst.set key (.map sm)
        | w => dst.set key w
    deepMergeKeys (key :: seen) dst1 rest

/-- The function deepMerge of mergo on two maps, with overwrite. -/
def deepMerge (dst src : Entries) : Entries := deepMergeKeys [] dst src

/-- The call mergo.Merge(&dst, src, mergo.WithOverride): the map that dst holds after
the call, and the error returned. A nil src has no keys. -/
def Merge (dst : Entries) (src : Layer) : Entries × Option GoError :=
  match src with
  | none => (dst, none)
  | some m => (deepMerge dst m, none)

/-! ## chart metadata -/

/-- The type images.Values, given by what its method Merge returns. -/
structure Values where
  Merge : Layer × Option GoError

/-- The type images.Mapping, given by what its method Walk returns for a resolver.
The field Images of the metadata is given by the mapping made from it. -/
structure Mapping where
  Walk : WalkFunc → Values × Option GoError

structure TestCase where
  Name : String
  Values : Layer
deriving DecidableEq

structure TestSpec where
  Values : Layer
  Cases : List TestCase

structure CGMeta where
  Images : Mapping
  Test : TestSpec

/-! ## The pipeline of `values.go` -/

def generateImageValues (L : Deps) (m : Option Mapping) (testRegistry : String) :
    Layer × Option GoError :=
  match m with
  | none => (none, none)
  | some m =>
    match NewRegistry L testRegistry with
    | (_, some err) =>
      (none, some (GoError.wrap ("invalid marker base " ++ Quote L testRegistry ++ ": ") err))
    | (registry, none) =>
      match m.Walk (testResolver L registry) with
      | (_, some err) => (none, some err)
      | (vals, none) => vals.Merge

/-- The loop of GenerateValues that merges the layers into result in order, for a given
behaviour of the call to mergo.Merge. -/
def mergeLayersWith (merge : Entries → Layer → Entries × Option GoError)
    (result : Entries) : List Layer → Layer × Option GoError
  | [] => (some result, none)
  | layer :: rest =>
    match merge result layer with
    | (_, some err) => (none, some (GoError.wrap "merging values: " err))
    | (result1, none) => mergeLayersWith merge result1 rest

/-- The function GenerateValues of values.go, for a given behaviour of the call to
mergo.Merge. -/
def GenerateValuesWith (merge : Entries → Layer → Entries × Option GoError) (L : Deps)
    (meta : CGMeta) (caseName testRegistry : String) (extra : Layer) :
    Layer × Option GoError :=
  match meta.Test.Cases.find? (fun c => c.Name == caseName) with
  | none => (none, some (GoError.new ("test case " ++ Quote L caseName ++ " not found")))
  | some tc =>
    match generateImageValues L (some meta.Images) testRegistry with
    | (_, some err) => (none, some (GoError.wrap "generating image values: " err))
    | (imageVals, none) =>
      mergeLayersWith merge .nil [imageVals, meta.Test.Values, tc.Values, extra]

/-- The loop of GenerateValues over the layers. -/
def mergeLayers (result : Entries) (layers : List Layer) : Layer × Option GoError :=
  mergeLayersWith Merge result layers

/-- The function GenerateValues of values.go. -/
def GenerateValues (L : Deps) (meta : CGMeta) (caseName testRegistry : String)
    (extra : Layer) : Layer × Option GoError :=
  GenerateValuesWith Merge L meta caseName testRegistry extra

/-! ## Definitions used to state the properties -/

/-- What one pass of the loop of deepMerge does to dst at a key it has not visited. -/
def mergeAt (dst : Entries) (key : String) (srcElement : Value) : Entries :=
  match srcElement with
  | .null => dst.set key .null
  | .map sm =>
    match dst.lookup key with
    | some (.map dm) =>
      if (deepMerge dm sm).isEmpty then dst.set key (.map sm)
      else dst.set key (.map (deepMerge dm sm))
    | _ => dst.set key (.map sm)
  | w => dst.set key w

/-- The value at a key after a merge, from the values of dst and src at that key. -/
def mergeValue (dstElement srcElement : Option Value) : Option Value :=
  match srcElement with
  | none => dstElement
  | some .null => some .null
  | some (.map sm) =>
    match dstElement with
    | some (.map dm) =>
      if (deepMerge dm sm).isEmpty then some (.map sm) else some (.map (deepMerge dm sm))
    | _ => some (.map sm)
  | some w => some w

/-- The value of the last layer of a sequence that has the key. -/
def lastLayerValue (key : String) (layers : List Layer) : Option Value :=
  layers.reverse.findSome? (Layer.lookup key)

/-- A scalar or a sequence: a value that is not a map. -/
def Value.isScalarOrSeq (v : Value) : Bool := v.isScalar || v.isSeq

/-- The first of two optional values that is present. -/
def firstOf (a b : Option Value) : Option Value :=
  match a with
  | some v => some v
  | none => b

/-! ### Sample inputs -/

/-- The layer with x at 1 and y at 2. -/
def precA : Entries := .ofList [("x", .int 1), ("y", .int 2)]

/-- The layer with y at 3. -/
def precB : Entries := .ofList [("y", .int 3)]

/-- The layer with x at 4. -/
def precC : Entries := .ofList [("x", .int 4)]

/-- A stand-in for the library tables: runes above U+007F are their own lower case, no
rune above U+00FF is printable, and the authorities are the names without a slash. -/
def sampleDeps : Deps :=
  ⟨fun r => r, fun _ => false, fun name => !(name.data.contains '/')⟩

/-- A mapping of one image, API, whose repository and tag are templated. -/
def sampleMapping : Mapping :=
  ⟨fun resolve =>
    (⟨(some (.ofList [("image", .map (.ofList
        [("repository", .str (resolve "API" [.field .RegistryRepo]).1),
         ("tag", .str (resolve "API" [.field .Tag]).1)])),
        ("mode", .str "image")]), none)⟩, none)⟩

/-- The case ha of the sample metadata. -/
def sampleCase : TestCase := ⟨"ha", some (.ofList [("replicas", .int 3)])⟩

/-- Metadata with global test values and the cases default and ha. -/
def sampleMeta : CGMeta :=
  ⟨sampleMapping,
    ⟨some (.ofList [("replicas", .int 1), ("mode", .str "global")]),
      [⟨"default", none⟩, sampleCase]⟩⟩

/-- The extra values of the sample call. -/
def sampleExtra : Layer := some (.ofList [("mode", .str "extra")])

/-- The layer with x at 1. -/
def oneX : Entries := .ofList [("x", .int 1)]

/-- The layer with x at null. -/
def nullX : Entries := .ofList [("x", .null)]

/-- The submap a:1 b:2. -/
def recSubA : Entries := .ofList [("a", .int 1), ("b", .int 2)]

/-- The submap b:3 c:4. -/
def recSubB : Entries := .ofList [("b", .int 3), ("c", .int 4)]

/-- The layer holding recSubA at n. -/
def recA : Entries := .ofList [("n", .map recSubA)]

/-- The layer holding recSubB at n. -/
def recB : Entries := .ofList [("n", .map recSubB)]

/-- The submap a:1. -/
def nullSubA : Entries := .ofList [("a", .int 1)]

/-- The submap with a and c both null. -/
def nullSubB : Entries := .ofList [("a", .null), ("c", .null)]

/-- The layer holding nullSubA at n. -/
def nullA : Entries := .ofList [("n", .map nullSubA)]

/-- The layer holding nullSubB at n. -/
def nullB : Entries := .ofList [("n", .map nullSubB)]

/-- A printable ASCII rune other than the double quote and the backslash: a rune that
strconv.Quote copies as it is. -/
def plainRune (r : Char) : Bool :=
  decide (0x20 ≤ r.toNat) && decide (r.toNat ≤ 0x7E) && (r != dquote) && (r != backslash)

/-- Whether the message s begins with the text p. -/
def startsWith (p s : String) : Bool := s.data.take p.data.length == p.data

/-- The message of the error of GenerateValues for a case that is not found. -/
def caseNotFoundMsg (L : Deps) (caseName : String) : String :=
  "test case " ++ Quote L caseName ++ " not found"

/-- The error of generateImageValues for a registry that does not parse. -/
def invalidRegistryError (L : Deps) (testRegistry : String) : GoError :=
  GoError.wrap ("invalid marker base " ++ Quote L testRegistry ++ ": ")
    (GoError.new ("registries must be valid RFC 3986 URI authorities: " ++ testRegistry))

/-- A case name with a double quote in it: a, double quote, b. -/
def quoteName : String := ⟨['a', dquote, 'b']⟩

/-- A merge call that fails on every layer, as mergo does on arguments it rejects. -/
def failingMerge : Entries → Layer → Entries × Option GoError :=
  fun dst _ => (dst, some (GoError.new "src and dst must be of same type"))

/-- The strings of a list one after another, in order. -/
def concatAll : List String → String
  | [] => ""
  | s :: rest => s ++ concatAll rest

/-- The value the resolver writes for one token: the text of a token that is no field
marker, and the resolved field of a marker. -/
def tokenValue (L : Deps) (registry : Registry) (imageID : String) (tok : Token) : String :=
  match tok with
  | .field v =>
    resolveField v imageID (registry.Repo [DefaultTestRepository, ToLower L imageID])
  | .text v => v

/-- The seven markers that resolveField knows. -/
def knownFields : List RefField :=
  [.Registry, .Repo, .RegistryRepo, .Tag, .Digest, .PseudoTag, .Ref]

/-- Metadata in which two cases have the name ha: the sample case, and a later one with
other values. -/
def duplicateMeta : CGMeta :=
  ⟨sampleMapping,
    ⟨some (.ofList [("replicas", .int 1), ("mode", .str "global")]),
      [⟨"default", none⟩, sampleCase, ⟨"ha", some (.ofList [("replicas", .int 5)])⟩]⟩⟩

/-- A string in the canonical form of a SHA-256 digest: sha256, a colon and 64
lower-case hexadecimal digits. -/
def isCanonicalDigest (s : String) : Bool :=
  s.data.take 7 == "sha256:".data && (s.data.drop 7).length == 64 &&
    (s.data.drop 7).all (fun c => "0123456789abcdef".data.contains c)

/-! ## Maps as Go holds them: by reference

In Go a map value is a reference to a map object, and `SetMapIndex` stores the
reference it is given. The definitions below follow `GenerateValues` and the loop of
`deepMerge` once more, on a store of map objects, so that what a call does to the map
objects of its inputs can be read off. -/

/-- A value held in a map object: a nested map is the address of its map object. A
sequence is kept as a value: the merge never changes one. -/
inductive RVal where
  | null
  | bool (b : Bool)
  | int (i : Int)
  | str (s : String)
  | seq (xs : Items)
  | ref (addr : Nat)
deriving DecidableEq

/-- The entries of one map object. -/
abbrev RMap := List (String × RVal)

/-- The store: the map objects, each at the address that is its position. -/
abbrev Heap := List RMap

/-- The map object at an address. -/
def Heap.read (h : Heap) (addr : Nat) : RMap := h.getD addr []

/-- The store with the map object at an address replaced. -/
def Heap.write (h : Heap) (addr : Nat) (m : RMap) : Heap := h.set addr m

/-- Reading a map object at a key. -/
def RMap.lookup (key : String) : RMap → Option RVal
  | [] => none
  | (k, v) :: rest => if k = key then some v else RMap.lookup key rest

/-- Writing a map object at a key. -/
def RMap.set (key : String) (v : RVal) : RMap → RMap
  | [] => [(key, v)]
  | (k, w) :: rest => if k = key then (k, v) :: rest else (k, w) :: RMap.set key v rest

/-- The entries of a map object, the first one of each key. -/
def RMap.firsts (seen : List String) : RMap → RMap
  | [] => []
  | (k, v) :: rest =>
    if k ∈ seen then RMap.firsts seen rest else (k, v) :: RMap.firsts (k :: seen) rest

/-- The loop of deepMerge over the keys of the map object src, writing into the map
object dst; fuel bounds the depth of nested maps. A source element that is a map is
stored in dst as the reference it is; when dst holds a map at the key too, the nested
call writes into that map object. -/
def deepMergeRef : Nat → Heap → Nat → Nat → Heap
  | 0, h, _, _ => h
  | fuel + 1, h, dst, src =>
    (RMap.firsts [] (h.read src)).foldl (fun h entry =>
      match entry.2 with
      | .null => h.write dst (RMap.set entry.1 .null (h.read dst))
      | .ref s =>
        match RMap.lookup entry.1 (h.read dst) with
        | some (.ref d) =>
          let h1 := deepMergeRef fuel h d s
          if (h1.read d).isEmpty then h1.write dst (RMap.set entry.1 (.ref s) (h1.read dst))
          else h1
        | _ => h.write dst (RMap.set entry.1 (.ref s) (h.read dst))
      | w => h.write dst (RMap.set entry.1 w (h.read dst))) h

mutual
/-- A value put into the store, its nested maps as new map objects. -/
def Value.alloc (h : Heap) : Value → Heap × RVal
  | .null => (h, .null)
  | .bool b => (h, .bool b)
  | .int i => (h, .int i)
  | .str s => (h, .str s)
  | .seq xs => (h, .seq xs)
  | .map m =>
    match Entries.alloc h m with
    | (h1, es) => (h1 ++ [es], .ref h1.length)
/-- The entries of a map put into the store. -/
def Entries.alloc (h : Heap) : Entries → Heap × RMap
  | .nil => (h, [])
  | .cons k v rest =>
    match Value.alloc h v with
    | (h1, rv) =>
      match Entries.alloc h1 rest with
      | (h2, es) => (h2, (k, rv) :: es)
end

/-- A layer put into the store as new map objects; a nil map stays nil. -/
def allocLayer (h : Heap) (layer : Layer) : Heap × Option Nat :=
  match layer with
  | none => (h, none)
  | some m =>
    match Entries.alloc h m with
    | (h1, es) => (h1 ++ [es], some h1.length)

/-- The value that a stored value stands for; fuel bounds the depth of nested maps. -/
def readValue : Nat → Heap → RVal → Value
  | _, _, .null => .null
  | _, _, .bool b => .bool b
  | _, _, .int i => .int i
  | _, _, .str s => .str s
  | _, _, .seq xs => .seq xs
  | 0, _, .ref _ => .map .nil
  | fuel + 1, h, .ref addr =>
    .map (Entries.ofList ((h.read addr).map (fun entry => (entry.1, readValue fuel h entry.2))))

/-- The layer that a map reference stands for. -/
def readLayer (fuel : Nat) (h : Heap) (layer : Option Nat) : Layer :=
  match layer with
  | none => none
  | some addr =>
    match readValue (fuel + 1) h (.ref addr) with
    | .map m => some m
    | _ => none

/-- A test case whose values are a map reference. -/
structure RefCase where
  Name : String
  Values : Option Nat
deriving DecidableEq

/-- The metadata with its maps as references into the store. -/
structure RefMeta where
  Images : Mapping
  TestValues : Option Nat
  Cases : List RefCase

/-- The function GenerateValues of values.go on the store: the store after the call,
the reference of the result, and the error. The image values are new map objects, the
result is a new empty map object, and each layer that is not nil is merged into it. -/
def GenerateValuesRef (fuel : Nat) (L : Deps) (h : Heap) (meta : RefMeta)
    (caseName testRegistry : String) (extra : Option Nat) :
    Heap × Option Nat × Option GoError :=
  match meta.Cases.find? (fun c => c.Name == caseName) with
  | none => (h, none, some (GoError.new ("test case " ++ Quote L caseName ++ " not found")))
  | some tc =>
    match generateImageValues L (some meta.Images) testRegistry with
    | (_, some err) => (h, none, some (GoError.wrap "generating image values: " err))
    | (imageVals, none) =>
      match allocLayer h imageVals with
      | (h1, imageRef) =>
        let result := h1.length
        let h2 := h1 ++ [[]]
        let h3 := [imageRef, meta.TestValues, tc.Values, extra].foldl (fun h layer =>
          match layer with
          | none => h
          | some src => deepMergeRef fuel h result src) h2
        (h3, some result, none)

/-- A chart that declares no image: the walk calls the resolver for no image and the
merge of its values is an empty map. -/
def noImages : Mapping := ⟨fun _ => (⟨(some .nil, none)⟩, none)⟩

/-- The store of the sample call: at 0 the global test values, n holding the map at 1;
at 1 that nested map, a:1; at 2 the values of the case ha, n holding the map at 3; at 3
that nested map, a:2. -/
def aliasHeap : Heap :=
  [[("n", .ref 1)], [("a", .int 1)], [("n", .ref 3)], [("a", .int 2)]]

/-- The metadata over aliasHeap: no image, the global test values at 0, the case
default without values and the case ha with the values at 2. -/
def aliasMeta : RefMeta := ⟨noImages, some 0, [⟨"default", none⟩, ⟨"ha", some 2⟩]⟩

/-- The same metadata with its maps as values. -/
def aliasMetaPure : CGMeta :=
  ⟨noImages,
    ⟨some (.ofList [("n", .map (.ofList [("a", .int 1)]))]),
      [⟨"default", none⟩, ⟨"ha", some (.ofList [("n", .map (.ofList [("a", .int 2)]))])⟩]⟩⟩

/-- The store after the sample call for the case ha: the map object at 1, the nested
map of the global test values, holds a:2; at 4 the empty image values; at 5 the result,
n holding the map at 1. -/
def aliasHeapAfter : Heap :=
  [[("n", .ref 1)], [("a", .int 2)], [("n", .ref 3)], [("a", .int 2)], [], [("n", .ref 1)]]

/-! ## Lemmas on maps and on the merge -/

theorem Entries.lookup_set_self (key : String) (v : Value) :
    ∀ m : Entries, (m.set key v).lookup key = some v
  | .nil => by simp [Entries.set, Entries.lookup]
  | .cons k w rest => by
    by_cases hk : k = key
    · simp [Entries.set, Entries.lookup, hk]
    · simp [Entries.set, Entries.lookup, hk, Entries.lookup_set_self key v rest]

theorem Entries.lookup_set_ne (key j : String) (v : Value) (hj : j ≠ key) :
    ∀ m : Entries, (m.set key v).lookup j = m.lookup j
  | .nil => by simp [Entries.set, Entries.lookup, Ne.symm hj]
  | .cons k w rest => by
    by_cases hk : k = key
    · subst hk
      simp [Entries.set, Entries.lookup, Ne.symm hj]
    · by_cases hkj : k = j
      · subst hkj
        simp [Entries.set, Entries.lookup, hk]
      · simp [Entries.set, Entries.lookup, hk, hkj, Entries.lookup_set_ne key j v hj rest]

theorem deepMergeKeys_cons (seen : List String) (dst : Entries) (key : String) (v : Value)
    (rest : Entries) :
    deepMergeKeys seen dst (.cons key v rest) =
      deepMergeKeys (key :: seen) (if key ∈ seen then dst else mergeAt dst key v) rest := by
  cases v <;> simp only [deepMergeKeys, mergeAt, deepMerge]

theorem lookup_mergeAt_self (dst : Entries) (key : String) (v : Value) :
    (mergeAt dst key v).lookup key = mergeValue (dst.lookup key) (some v) := by
  cases v with
  | null => simp [mergeAt, mergeValue, Entries.lookup_set_self]
  | map sm =>
    simp only [mergeAt, mergeValue]
    split
    · split <;> simp [Entries.lookup_set_self]
    · simp [Entries.lookup_set_self]
  | _ => simp [mergeAt, mergeValue, Entries.lookup_set_self]

theorem lookup_mergeAt_ne (dst : Entries) (key j : String) (v : Value) (hj : j ≠ key) :
    (mergeAt dst key v).lookup j = dst.lookup j := by
  cases v with
  | null => simp [mergeAt, Entries.lookup_set_ne _ _ _ hj]
  | map sm =>
    simp only [mergeAt]
    split
    · split <;> simp [Entries.lookup_set_ne _ _ _ hj]
    · simp [Entries.lookup_set_ne _ _ _ hj]
  | _ => simp [mergeAt, Entries.lookup_set_ne _ _ _ hj]

theorem lookup_deepMergeKeys (j : String) :
    ∀ (src : Entries) (seen : List String) (dst : Entries),
      (deepMergeKeys seen dst src).lookup j =
        if j ∈ seen then dst.lookup j else mergeValue (dst.lookup j) (src.lookup j)
  | .nil, seen, dst => by simp [deepMergeKeys, Entries.lookup, mergeValue]
  | .cons key v rest, seen, dst => by
    rw [deepMergeKeys_cons, lookup_deepMergeKeys j rest]
    by_cases hjs : j ∈ seen
    · have h1 : j ∈ key :: seen := List.mem_cons_of_mem _ hjs
      rw [if_pos h1, if_pos hjs]
      by_cases hks : key ∈ seen
      · rw [if_pos hks]
      · rw [if_neg hks]
        have hne : j ≠ key := fun e => hks (e ▸ hjs)
        exact lookup_mergeAt_ne dst key j v hne
    · rw [if_neg hjs]
      by_cases hjk : j = key
      · subst hjk
        simp [hjs, lookup_mergeAt_self, Entries.lookup]
      · have h1 : j ∉ key :: seen := by simp [hjk, hjs]
        rw [if_neg h1]
        have h2 : (if key ∈ seen then dst else mergeAt dst key v).lookup j = dst.lookup j := by
          split
          · rfl
          · exact lookup_mergeAt_ne dst key j v hjk
        rw [h2]
        simp [Entries.lookup, Ne.symm hjk]

theorem lookup_deepMerge (dst src : Entries) (j : String) :
    (deepMerge dst src).lookup j = mergeValue (dst.lookup j) (src.lookup j) := by
  simp [deepMerge, lookup_deepMergeKeys]

theorem deepMerge_nil (dst : Entries) : deepMerge dst .nil = dst := by
  simp [deepMerge, deepMergeKeys]

theorem Merge_error (dst : Entries) (layer : Layer) : (Merge dst layer).2 = none := by
  cases layer <;> rfl

theorem lookup_Merge (dst : Entries) (layer : Layer) (j : String) :
    (Merge dst layer).1.lookup j = mergeValue (dst.lookup j) (Layer.lookup j layer) := by
  cases layer with
  | none => simp [Merge, Layer.lookup, mergeValue]
  | some m => simp [Merge, Layer.lookup, lookup_deepMerge]

/-- The map left by merging the layers in order, without the error plumbing. -/
theorem mergeLayers_eq (layers : List Layer) :
    ∀ result : Entries,
      mergeLayers result layers =
        (some (layers.foldl (fun acc layer => (Merge acc layer).1) result), none) := by
  induction layers with
  | nil => intro result; rfl
  | cons layer rest ih =>
    intro result
    have h : Merge result layer = ((Merge result layer).1, none) := by
      rw [← Merge_error result layer]
    rw [mergeLayers, mergeLayersWith, h]
    simp only [List.foldl_cons]
    exact ih _

theorem lookup_foldl_Merge (j : String) (layers : List Layer) :
    ∀ result : Entries,
      (layers.foldl (fun acc layer => (Merge acc layer).1) result).lookup j =
        layers.foldl (fun acc layer => mergeValue acc (Layer.lookup j layer))
          (result.lookup j) := by
  induction layers with
  | nil => intro result; rfl
  | cons layer rest ih =>
    intro result
    simp only [List.foldl_cons]
    rw [ih, lookup_Merge]

theorem mergeValue_scalarOrSeq (d : Option Value) (v : Value)
    (hv : v.isScalarOrSeq = true) : mergeValue d (some v) = some v := by
  cases v <;> simp_all [mergeValue, Value.isScalarOrSeq, Value.isScalar, Value.isSeq]

theorem foldl_mergeValue_absent (j : String) (layers : List Layer)
    (habs : ∀ layer ∈ layers, Layer.lookup j layer = none) :
    ∀ acc : Option Value,
      layers.foldl (fun acc layer => mergeValue acc (Layer.lookup j layer)) acc = acc := by
  induction layers with
  | nil => intro acc; rfl
  | cons layer rest ih =>
    intro acc
    simp only [List.foldl_cons]
    rw [habs layer (List.mem_cons_self _ _)]
    simp only [mergeValue]
    exact ih (fun l hl => habs l (List.mem_cons_of_mem _ hl)) acc

theorem foldl_mergeValue_last (j : String) (layers : List Layer)
    (hkind : ∀ layer ∈ layers, ∀ v, Layer.lookup j layer = some v → v.isScalarOrSeq = true) :
    ∀ acc : Option Value,
      layers.foldl (fun acc layer => mergeValue acc (Layer.lookup j layer)) acc =
        firstOf (lastLayerValue j layers) acc := by
  induction layers with
  | nil => intro acc; rfl
  | cons layer rest ih =>
    intro acc
    simp only [List.foldl_cons]
    rw [ih (fun l hl => hkind l (List.mem_cons_of_mem _ hl))]
    simp only [lastLayerValue, List.reverse_cons, List.findSome?_append]
    cases hrest : List.findSome? (Layer.lookup j) rest.reverse with
    | some w => simp [firstOf]
    | none =>
      cases hl : Layer.lookup j layer with
      | none => simp [firstOf, mergeValue, List.findSome?, hl]
      | some v =>
        have := hkind layer (List.mem_cons_self _ _) v hl
        simp [firstOf, List.findSome?, hl, mergeValue_scalarOrSeq _ _ this]

theorem find_case (cases pre post : List TestCase) (tc : TestCase) (caseName : String)
    (hcases : cases = pre ++ tc :: post) (hpre : ∀ c ∈ pre, c.Name ≠ caseName)
    (hname : tc.Name = caseName) :
    cases.find? (fun c => c.Name == caseName) = some tc := by
  subst hcases
  induction pre with
  | nil => simp [List.find?, hname]
  | cons c rest ih =>
    have hc : c.Name ≠ caseName := hpre c (List.mem_cons_self _ _)
    have hb : (c.Name == caseName) = false := by simp [hc]
    rw [List.cons_append, List.find?_cons, hb]
    exact ih (fun d hd => hpre d (List.mem_cons_of_mem _ hd))

theorem find_case_none (cases : List TestCase) (caseName : String)
    (hno : ∀ c ∈ cases, c.Name ≠ caseName) :
    cases.find? (fun c => c.Name == caseName) = none := by
  simp only [List.find?_eq_none, beq_iff_eq]
  exact hno

theorem generateImageValues_ok (L : Deps) (m : Mapping) (testRegistry : String)
    (registry : Registry) (vals : Values)
    (hreg : NewRegistry L testRegistry = (registry, none))
    (hwalk : m.Walk (testResolver L registry) = (vals, none)) :
    generateImageValues L (some m) testRegistry = vals.Merge := by
  simp only [generateImageValues, hreg, hwalk]

theorem GenerateValues_ok (L : Deps) (meta : CGMeta) (caseName testRegistry : String)
    (extra : Layer) (pre post : List TestCase) (tc : TestCase) (registry : Registry)
    (vals : Values) (imageVals : Layer)
    (hcases : meta.Test.Cases = pre ++ tc :: post)
    (hpre : ∀ c ∈ pre, c.Name ≠ caseName) (hname : tc.Name = caseName)
    (hreg : NewRegistry L testRegistry = (registry, none))
    (hwalk : meta.Images.Walk (testResolver L registry) = (vals, none))
    (hmerge : vals.Merge = (imageVals, none)) :
    GenerateValues L meta caseName testRegistry extra =
      mergeLayers .nil [imageVals, meta.Test.Values, tc.Values, extra] := by
  simp only [GenerateValues, GenerateValuesWith, mergeLayers,
    find_case _ pre post tc caseName hcases hpre hname,
    generateImageValues_ok L meta.Images testRegistry registry vals hreg hwalk, hmerge]

theorem Entries.lookup_of_isEmpty (m : Entries) (j : String) (h : m.isEmpty = true) :
    m.lookup j = none := by
  cases m with
  | nil => rfl
  | cons k v rest => simp [Entries.isEmpty] at h

theorem mergeValue_notMap (d : Option Value) (v : Value) (hmap : v.isMap = false) :
    mergeValue d (some v) = some v := by
  cases v <;> simp_all [mergeValue, Value.isMap]

theorem mergeValue_overNonMap (d : Option Value) (v : Value)
    (hd : ∀ dm, d ≠ some (.map dm)) : mergeValue d (some v) = some v := by
  cases v with
  | map sm =>
    cases d with
    | none => rfl
    | some w =>
      cases w with
      | map dm => exact absurd rfl (hd dm)
      | _ => rfl
  | _ => simp [mergeValue]

theorem mergeValue_isSome (d : Option Value) (v : Value) : mergeValue d (some v) ≠ none := by
  cases v with
  | map sm =>
    cases d with
    | none => simp [mergeValue]
    | some w =>
      cases w with
      | map dm =>
        simp only [mergeValue]
        split <;> simp
      | _ => simp [mergeValue]
  | _ => simp [mergeValue]

/-- A merge that leaves an empty map had an empty source. -/
theorem deepMerge_isEmpty (dm sm : Entries) (h : (deepMerge dm sm).isEmpty = true) :
    sm = .nil := by
  cases sm with
  | nil => rfl
  | cons key v rest =>
    have hl := lookup_deepMerge dm (.cons key v rest) key
    rw [Entries.lookup_of_isEmpty _ key h] at hl
    simp only [Entries.lookup, if_true] at hl
    exact absurd hl.symm (mergeValue_isSome _ v)

/-- Two maps at a key merge to the merge of the two maps. -/
theorem mergeValue_maps_eq (dm sm : Entries) :
    mergeValue (some (.map dm)) (some (.map sm)) = some (.map (deepMerge dm sm)) := by
  simp only [mergeValue]
  split
  · rename_i h
    have hsm := deepMerge_isEmpty dm sm h
    subst hsm
    have hdm : deepMerge dm .nil = .nil := by
      cases hd : deepMerge dm .nil with
      | nil => rfl
      | cons k w r => rw [hd] at h; simp [Entries.isEmpty] at h
    rw [hdm]
  · rfl

theorem mergeValue_maps (dm sm : Entries) :
    mergeValue (some (.map dm)) (some (.map sm)) =
      if (deepMerge dm sm).isEmpty then some (.map sm) else some (.map (deepMerge dm sm)) := by
  simp only [mergeValue]

theorem lookup_merge_two (A B : Entries) (key : String) :
    ∃ result, mergeLayers .nil [some A, some B] = (some result, none) ∧
      result.lookup key =
        mergeValue (mergeValue none (A.lookup key)) (B.lookup key) := by
  refine ⟨_, mergeLayers_eq _ .nil, ?_⟩
  rw [lookup_foldl_Merge]
  simp [Layer.lookup, Entries.lookup]

theorem Merge_none (dst : Entries) : Merge dst none = (dst, none) := rfl

theorem Merge_empty (dst : Entries) : Merge dst (some .nil) = (dst, none) := by
  simp [Merge, deepMerge_nil]

theorem mergeLayers_append (xs ys : List Layer) (result : Entries) :
    mergeLayers result (xs ++ ys) =
      mergeLayers (xs.foldl (fun acc layer => (Merge acc layer).1) result) ys := by
  rw [mergeLayers_eq, mergeLayers_eq, List.foldl_append]

theorem mergeLayers_skip (layer : Layer) (rest : List Layer) (result : Entries)
    (hskip : Merge result layer = (result, none)) :
    mergeLayers result (layer :: rest) = mergeLayers result rest := by
  rw [mergeLayers, mergeLayersWith, hskip]
  rfl

theorem mergeLayers_insert (xs ys : List Layer) (layer : Layer)
    (hskip : ∀ dst, Merge dst layer = (dst, none)) :
    mergeLayers .nil (xs ++ layer :: ys) = mergeLayers .nil (xs ++ ys) := by
  rw [mergeLayers_append, mergeLayers_append, mergeLayers_skip _ _ _ (hskip _)]

theorem escapeRune_plain (L : Deps) (r : Char) (hr : plainRune r = true) :
    escapeRune L r = [r] := by
  simp only [plainRune, Bool.and_eq_true, decide_eq_true_eq, bne_iff_ne, ne_eq] at hr
  obtain ⟨⟨⟨hlo, hhi⟩, hq⟩, hb⟩ := hr
  have hprint : IsPrint L r = true := by
    have h1 : r.toNat ≤ 0xFF := by omega
    simp [IsPrint, h1, hlo, hhi]
  simp [escapeRune, hq, hb, hprint]

theorem flatMap_escapeRune_plain (L : Deps) (l : List Char)
    (hl : ∀ r ∈ l, plainRune r = true) : l.flatMap (escapeRune L) = l := by
  induction l with
  | nil => rfl
  | cons r rest ih =>
    rw [List.flatMap_cons, escapeRune_plain L r (hl r (List.mem_cons_self _ _)),
      ih (fun x hx => hl x (List.mem_cons_of_mem _ hx))]
    rfl

theorem Quote_plain (L : Deps) (s : String) (hs : ∀ r ∈ s.data, plainRune r = true) :
    Quote L s = ⟨dquote :: (s.data ++ [dquote])⟩ := by
  rw [Quote, flatMap_escapeRune_plain L s.data hs]

theorem find_case_some (cases : List TestCase) (caseName : String)
    (hex : ∃ c ∈ cases, c.Name = caseName) :
    ∃ tc, cases.find? (fun c => c.Name == caseName) = some tc := by
  cases hfind : cases.find? (fun c => c.Name == caseName) with
  | some tc => exact ⟨tc, rfl⟩
  | none =>
    obtain ⟨c, hc, hn⟩ := hex
    rw [List.find?_eq_none] at hfind
    have := hfind c hc
    simp [hn] at this

theorem mergeLayersWith_error (merge : Entries → Layer → Entries × Option GoError)
    (layers : List Layer) :
    ∀ (result : Entries) (err : GoError),
      (mergeLayersWith merge result layers).2 = some err →
        (mergeLayersWith merge result layers).1 = none ∧
          ∃ inner, err = GoError.wrap "merging values: " inner := by
  induction layers with
  | nil =>
    intro result err h
    simp [mergeLayersWith] at h
  | cons layer rest ih =>
    intro result err h
    rw [mergeLayersWith] at h ⊢
    cases hm : merge result layer with
    | mk result1 e =>
      cases e with
      | some inner =>
        rw [hm] at h
        simp only [Option.some.injEq] at h
        exact ⟨rfl, inner, h.symm⟩
      | none =>
        rw [hm] at h
        exact ih result1 err h

theorem startsWith_case_generating (inner : GoError) :
    startsWith "test case " (GoError.wrap "generating image values: " inner).msg = false :=
  rfl

theorem startsWith_case_merging (inner : GoError) :
    startsWith "test case " (GoError.wrap "merging values: " inner).msg = false :=
  rfl

theorem GenerateValuesWith_notFound (merge : Entries → Layer → Entries × Option GoError)
    (L : Deps) (meta : CGMeta) (caseName testRegistry : String) (extra : Layer)
    (hno : ∀ c ∈ meta.Test.Cases, c.Name ≠ caseName) :
    GenerateValuesWith merge L meta caseName testRegistry extra =
      (none, some (GoError.new (caseNotFoundMsg L caseName))) := by
  simp only [GenerateValuesWith, find_case_none _ caseName hno, caseNotFoundMsg]

theorem infix_caseNotFoundMsg (L : Deps) (caseName : String)
    (hplain : ∀ r ∈ caseName.data, plainRune r = true) :
    caseName.data <:+: (caseNotFoundMsg L caseName).data := by
  rw [caseNotFoundMsg, Quote_plain L caseName hplain]
  refine ⟨"test case ".data ++ [dquote], dquote :: " not found".data, ?_⟩
  simp [String.data_append]

theorem infix_invalidRegistry (L : Deps) (testRegistry : String) (text : String) :
    testRegistry.data <:+: (GoError.wrap text (invalidRegistryError L testRegistry)).msg.data :=
  ⟨(text ++ ("invalid marker base " ++ Quote L testRegistry ++ ": ") ++
      "registries must be valid RFC 3986 URI authorities: ").data, [], by
    simp [GoError.wrap, GoError.new, invalidRegistryError, String.data_append]⟩

theorem generateImageValues_invalid (L : Deps) (m : Mapping) (testRegistry : String)
    (hbad : L.validAuthority testRegistry = false) :
    generateImageValues L (some m) testRegistry =
      (none, some (invalidRegistryError L testRegistry)) := by
  simp [generateImageValues, NewRegistry, hbad, invalidRegistryError]

theorem foldl_resolver (imageID : String) (repo : Repository) (tokens : List Token) :
    ∀ acc : String,
      tokens.foldl (fun sb tok =>
        match tok with
        | .field v => sb ++ resolveField v imageID repo
        | .text v => sb ++ v) acc =
      acc ++ concatAll (tokens.map (fun tok =>
        match tok with
        | .field v => resolveField v imageID repo
        | .text v => v)) := by
  induction tokens with
  | nil => intro acc; simp [concatAll]
  | cons tok rest ih =>
    intro acc
    simp only [List.foldl_cons, List.map_cons, concatAll]
    rw [ih]
    cases tok <;> simp [String.append_assoc]

theorem concatAll_append (xs ys : List String) :
    concatAll (xs ++ ys) = concatAll xs ++ concatAll ys := by
  induction xs with
  | nil => simp [concatAll]
  | cons x rest ih => simp [concatAll, ih, String.append_assoc]

theorem testResolver_eq (L : Deps) (registry : Registry) (imageID : String)
    (tokens : TokenList) :
    testResolver L registry imageID tokens =
      (concatAll (tokens.map (tokenValue L registry imageID)), none) := by
  simp only [testResolver, foldl_resolver, String.empty_append]
  rfl

theorem testResolver_field (L : Deps) (registry : Registry) (imageID : String)
    (f : RefField) :
    testResolver L registry imageID [.field f] =
      (resolveField f imageID (registry.Repo [DefaultTestRepository, ToLower L imageID]),
        none) := by
  rw [testResolver_eq]
  simp [concatAll, tokenValue]

theorem ToLower_API (L : Deps) : ToLower L "API" = "api" := rfl

theorem NewRegistry_cgr (L : Deps) (hvalid : L.validAuthority "cgr.test" = true) :
    NewRegistry L DefaultTestRegistry = (⟨false, "cgr.test"⟩, none) := by
  simp only [NewRegistry, DefaultTestRegistry, hvalid]
  decide

theorem repo_API :
    (Registry.Repo ⟨false, "cgr.test"⟩ [DefaultTestRepository, "api"]) =
      ⟨⟨false, "cgr.test"⟩, "chainguard/test/api"⟩ := by
  decide

theorem TestDigest_API :
    TestDigest "API" =
      "sha256:c8e5998f6a3955c21d858936fe05c69621724d7f825c6e17793002a0fa798bf9" := by
  decide

theorem resolveField_unknown (f : RefField) (imageID : String) (repo : Repository)
    (hf : f ∉ knownFields) : resolveField f imageID repo = "" := by
  cases f <;> first | rfl | simp [knownFields] at hf

theorem NewRegistry_nonempty (L : Deps) (name : String) (registry : Registry)
    (hreg : NewRegistry L name = (registry, none)) : registry.registry ≠ "" := by
  simp only [NewRegistry] at hreg
  split at hreg
  · simp at hreg
  · simp only [Prod.mk.injEq, and_true] at hreg
    rw [← hreg]
    by_cases h1 : name = ""
    · simp only [h1, if_true]
      decide
    · simp only [h1, if_false]
      by_cases h2 : name = defaultRegistryAlias
      · simp only [h2, if_true]
        decide
      · simp only [h2, if_false]
        exact h1

theorem Repository.Name_eq (r : Repository) (hne : r.Registry.registry ≠ "") :
    r.Name = r.RegistryStr ++ "/" ++ r.RepositoryStr := by
  simp [Repository.Name, Registry.Name, Registry.RegistryStr, Repository.RegistryStr, hne]

theorem resolveField_values (imageID : String) (repo : Repository) :
    resolveField .Registry imageID repo = repo.RegistryStr ∧
    resolveField .Repo imageID repo = repo.RepositoryStr ∧
    resolveField .RegistryRepo imageID repo = repo.Name ∧
    resolveField .Tag imageID repo = DefaultTestTag ∧
    resolveField .Digest imageID repo = TestDigest imageID ∧
    resolveField .PseudoTag imageID repo = DefaultTestTag ++ "@" ++ TestDigest imageID ∧
    resolveField .Ref imageID repo = repo.Name ++ "@" ++ TestDigest imageID := by
  simp only [resolveField, Digest.Name, Digest.DigestStr, Repository.Digest, and_self]

/-- The values the resolver gives to the seven markers on their own. -/
theorem testResolver_markers (L : Deps) (registry : Registry) (imageID : String) :
    (testResolver L registry imageID [.field .Registry]).1 =
      (registry.Repo [DefaultTestRepository, ToLower L imageID]).RegistryStr ∧
    (testResolver L registry imageID [.field .Repo]).1 =
      (registry.Repo [DefaultTestRepository, ToLower L imageID]).RepositoryStr ∧
    (testResolver L registry imageID [.field .RegistryRepo]).1 =
      (registry.Repo [DefaultTestRepository, ToLower L imageID]).Name ∧
    (testResolver L registry imageID [.field .Tag]).1 = DefaultTestTag ∧
    (testResolver L registry imageID [.field .Digest]).1 = TestDigest imageID ∧
    (testResolver L registry imageID [.field .PseudoTag]).1 =
      DefaultTestTag ++ "@" ++ TestDigest imageID ∧
    (testResolver L registry imageID [.field .Ref]).1 =
      (registry.Repo [DefaultTestRepository, ToLower L imageID]).Name ++ "@" ++
        TestDigest imageID := by
  simp only [testResolver_field, resolveField_values, and_self]

theorem Sha256.round_length (st : List Nat) (kw : Nat × Nat) :
    (Sha256.round st kw).length = st.length := by
  unfold Sha256.round
  split <;> rfl

theorem Sha256.foldl_round_length (kws : List (Nat × Nat)) :
    ∀ st : List Nat, (kws.foldl Sha256.round st).length = st.length := by
  induction kws with
  | nil => intro st; rfl
  | cons kw rest ih =>
    intro st
    rw [List.foldl_cons, ih, Sha256.round_length]

theorem Sha256.compress_length (h blk : List Nat) :
    (Sha256.compress h blk).length = h.length := by
  simp [Sha256.compress, List.length_zipWith, Sha256.foldl_round_length]

theorem Sha256.foldl_compress_length (p : List Nat) (idx : List Nat) :
    ∀ h : List Nat,
      (idx.foldl (fun h i => Sha256.compress h ((p.drop (64 * i)).take 64)) h).length =
        h.length := by
  induction idx with
  | nil => intro h; rfl
  | cons i rest ih =>
    intro h
    rw [List.foldl_cons, ih, Sha256.compress_length]

theorem length_flatMap_const {α β : Type} (f : α → List β) (n : Nat)
    (hf : ∀ x, (f x).length = n) :
    ∀ l : List α, (l.flatMap f).length = n * l.length := by
  intro l
  induction l with
  | nil => rfl
  | cons x rest ih =>
    rw [List.flatMap_cons, List.length_append, hf, ih, List.length_cons]
    ring

theorem Sha256.Sum256_length (msg : List Nat) : (Sha256.Sum256 msg).length = 32 := by
  unfold Sha256.Sum256
  simp only []
  rw [length_flatMap_const _ 4 (fun x => by simp), Sha256.foldl_compress_length]
  rfl

theorem Sha256.Sum256_bytes (msg : List Nat) : ∀ b ∈ Sha256.Sum256 msg, b < 256 := by
  intro b hb
  unfold Sha256.Sum256 at hb
  simp only [List.mem_flatMap, List.mem_map] at hb
  obtain ⟨x, _, i, _, hbi⟩ := hb
  rw [← hbi]
  exact Nat.mod_lt _ (by decide)

theorem hexDigit_mem (n : Nat) : "0123456789abcdef".data.contains (hexDigit n) = true := by
  by_cases hn : n < 16
  · interval_cases n <;> decide
  · have h : hexDigit n = '0' := by
      unfold hexDigit
      exact List.getD_eq_default _ _ (by simpa [lowerhex] using Nat.le_of_not_lt hn)
    rw [h]
    decide

theorem hexEncode_length (bs : List Nat) : (hexEncode bs).data.length = 2 * bs.length := by
  unfold hexEncode
  exact length_flatMap_const (fun b => [hexDigit (b / 16), hexDigit (b % 16)]) 2
    (fun _ => rfl) bs

theorem hexEncode_digits (bs : List Nat) :
    (hexEncode bs).data.all (fun c => "0123456789abcdef".data.contains c) = true := by
  unfold hexEncode
  simp only [List.all_eq_true, List.mem_flatMap]
  intro c hc
  obtain ⟨b, _, hcb⟩ := hc
  simp only [List.mem_cons, List.mem_singleton, List.not_mem_nil, or_false] at hcb
  rcases hcb with h | h <;> rw [h] <;> exact hexDigit_mem _

theorem TestDigest_canonical (imageID : String) :
    isCanonicalDigest (TestDigest imageID) = true := by
  have hdata : (TestDigest imageID).data =
      "sha256:".data ++ (hexEncode (Sha256.Sum256 (bytesOf imageID))).data := by
    simp [TestDigest, String.data_append]
  have htake : (TestDigest imageID).data.take 7 = "sha256:".data := by
    rw [hdata]
    exact List.take_left' rfl
  have hdrop : (TestDigest imageID).data.drop 7 =
      (hexEncode (Sha256.Sum256 (bytesOf imageID))).data := by
    rw [hdata]
    exact List.drop_left' rfl
  simp only [isCanonicalDigest, htake, hdrop, hexEncode_length, Sha256.Sum256_length,
    hexEncode_digits, beq_self_eq_true, Bool.and_self]

theorem ToLower_api (L : Deps) : ToLower L "api" = "api" := rfl

theorem TestDigest_api :
    TestDigest "api" =
      "sha256:14c2529eb4498c5d1ffd6915d05bf58a91bdda796af59f41d480d11c099d0479" := by
  decide

theorem GenerateValues_first_case (L : Deps) (images : Mapping) (testValues : Layer)
    (pre post : List TestCase) (tc : TestCase) (caseName testRegistry : String)
    (extra : Layer) (hpre : ∀ c ∈ pre, c.Name ≠ caseName) (hname : tc.Name = caseName) :
    GenerateValues L ⟨images, ⟨testValues, pre ++ tc :: post⟩⟩ caseName testRegistry extra =
      GenerateValues L ⟨images, ⟨testValues, [tc]⟩⟩ caseName testRegistry extra := by
  simp only [GenerateValues, GenerateValuesWith,
    find_case (pre ++ tc :: post) pre post tc caseName rfl hpre hname,
    find_case [tc] [] [] tc caseName rfl (fun c hc => by simp at hc) hname]

/-! ## The layered merge -/

theorem precSample_kinds :
    ∀ layer ∈ [some precA, some precB, some precC], ∀ v,
      Layer.lookup "x" layer = some v → v.isScalarOrSeq = true := by
  intro layer hmem v hv
  simp only [List.mem_cons, List.mem_singleton, List.not_mem_nil, or_false] at hmem
  rcases hmem with h | h | h <;> subst h <;>
    simp [Layer.lookup, precA, precB, precC, Entries.ofList, Entries.lookup] at hv <;>
    subst hv <;> rfl

/-- C1. Merge precedence of the layered merge of GenerateValues (the loop that merges
each layer into the result with override, from an empty map): for every sequence of
layers and every key whose values in the layers are scalars, null among them, or
sequences, the merge succeeds and the result holds at the key the value of the last
layer that has the key; layers after it that lack the key leave the value of the
earlier layers in place. The layers x:1 y:2, then y:3, then x:4 merge to exactly x:4
y:3; x:1 then x:null merge to x:null, and x:null alone to x:null. -/
theorem merge_precedence (layers : List Layer) (key : String)
    (hkind : ∀ layer ∈ layers, ∀ v,
      Layer.lookup key layer = some v → v.isScalarOrSeq = true) :
    (∃ result, mergeLayers .nil layers = (some result, none) ∧
        result.lookup key = lastLayerValue key layers ∧
        ∀ earlier later kept, layers = earlier ++ later →
          (∀ layer ∈ later, Layer.lookup key layer = none) →
          mergeLayers .nil earlier = (some kept, none) →
          result.lookup key = kept.lookup key) ∧
    mergeLayers .nil [some precA, some precB, some precC] =
      (some (.ofList [("x", .int 4), ("y", .int 3)]), none) ∧
    mergeLayers .nil [some oneX, some nullX] = (some (.ofList [("x", .null)]), none) ∧
    mergeLayers .nil [some nullX] = (some (.ofList [("x", .null)]), none) := by
  refine ⟨⟨_, mergeLayers_eq layers .nil, ?_, ?_⟩, by decide, by decide, by decide⟩
  · rw [lookup_foldl_Merge, foldl_mergeValue_last key layers hkind]
    cases lastLayerValue key layers <;> rfl
  · intro earlier later kept hsplit habs hkept
    rw [mergeLayers_eq] at hkept
    have hk : kept = earlier.foldl (fun acc layer => (Merge acc layer).1) .nil := by
      cases hkept; rfl
    rw [lookup_foldl_Merge, hk, lookup_foldl_Merge, hsplit, List.foldl_append]
    exact foldl_mergeValue_absent key later habs _

theorem merge_precedence_witness :
    ∃ result, mergeLayers .nil [some precA, some precB, some precC] = (some result, none) ∧
      result.lookup "x" = some (.int 4) := by
  obtain ⟨result, hres, hlook, _⟩ :=
    (merge_precedence [some precA, some precB, some precC] "x" precSample_kinds).1
  exact ⟨result, hres, by rw [hlook]; decide⟩

/-- C3. Recursive merge: when two layers both hold a map at the same key, the merged
value at that key is the key-by-key override-merge of the two submaps, not the later
submap alone: it is the map that merging the later submap into the earlier one gives,
and it reads at every key as the layered merge of the two submaps. A key only in the
earlier submap is kept, a key only in the later submap is added, a shared key takes the
later value, null or not, unless both submaps hold a map there, and then it holds the
merge of those two maps. The layers n: a:1 b:2 and n: b:3 c:4 give n: a:1 b:3 c:4, and
n: a:1 and n: a:null c:null give n: a:null c:null. -/
theorem recursive_merge (A B : Entries) (key : String) (a b : Entries)
    (hA : A.lookup key = some (.map a)) (hB : B.lookup key = some (.map b)) :
    (∃ result merged, mergeLayers .nil [some A, some B] = (some result, none) ∧
      result.lookup key = some (.map merged) ∧
      merged = deepMerge a b ∧
      (∃ sub, mergeLayers .nil [some a, some b] = (some sub, none) ∧
        ∀ j, merged.lookup j = sub.lookup j) ∧
      (∀ j, b.lookup j = none → merged.lookup j = a.lookup j) ∧
      (∀ j v, a.lookup j = none → b.lookup j = some v → merged.lookup j = some v) ∧
      (∀ j w v, a.lookup j = some w → b.lookup j = some v →
        w.isMap = false ∨ v.isMap = false → merged.lookup j = some v) ∧
      (∀ j a1 b1, a.lookup j = some (.map a1) → b.lookup j = some (.map b1) →
        merged.lookup j = some (.map (deepMerge a1 b1)))) ∧
    mergeLayers .nil [some recA, some recB] =
      (some (.ofList [("n", .map (.ofList [("a", .int 1), ("b", .int 3), ("c", .int 4)]))]),
        none) ∧
    mergeLayers .nil [some nullA, some nullB] =
      (some (.ofList [("n", .map (.ofList [("a", .null), ("c", .null)]))]), none) := by
  refine ⟨?_, by decide, by decide⟩
  obtain ⟨result, hres, hlook⟩ := lookup_merge_two A B key
  rw [hA, hB] at hlook
  have hfirst : mergeValue none (some (Value.map a)) = some (.map a) := rfl
  rw [hfirst, mergeValue_maps_eq] at hlook
  refine ⟨result, deepMerge a b, hres, hlook, rfl, ?_, ?_, ?_, ?_, ?_⟩
  · refine ⟨_, mergeLayers_eq _ .nil, ?_⟩
    intro j
    rw [lookup_deepMerge, lookup_foldl_Merge]
    simp only [List.foldl_cons, List.foldl_nil, Layer.lookup, Entries.lookup]
    cases ha : a.lookup j with
    | none => rfl
    | some w => rw [mergeValue_overNonMap none w (fun dm h => by cases h)]
  · intro j hb
    rw [lookup_deepMerge, hb]
    rfl
  · intro j v ha hb
    rw [lookup_deepMerge, ha, hb]
    exact mergeValue_overNonMap none v (fun dm h => by cases h)
  · intro j w v ha hb hkind
    rw [lookup_deepMerge, ha, hb]
    rcases hkind with hw | hv
    · refine mergeValue_overNonMap _ v (fun dm h => ?_)
      cases h
      simp [Value.isMap] at hw
    · exact mergeValue_notMap _ v hv
  · intro j a1 b1 ha hb
    rw [lookup_deepMerge, ha, hb, mergeValue_maps_eq]

theorem recursive_merge_witness :
    ∃ result merged, mergeLayers .nil [some recA, some recB] = (some result, none) ∧
      result.lookup "n" = some (.map merged) ∧ merged.lookup "a" = some (.int 1) ∧
      merged.lookup "b" = some (.int 3) ∧ merged.lookup "c" = some (.int 4) := by
  obtain ⟨result, merged, hres, hlook, _, _, hkeep, hadd, hlater, _⟩ :=
    (recursive_merge recA recB "n" recSubA recSubB (by decide) (by decide)).1
  refine ⟨result, merged, hres, hlook, ?_, ?_, ?_⟩
  · rw [hkeep "a" (by decide)]
    decide
  · exact hlater "b" (.int 2) (.int 3) (by decide) (by decide) (Or.inl rfl)
  · exact hadd "c" (.int 4) (by decide) (by decide)

/-- C4. Absent layer is identity: a nil or an empty map put at any place of a sequence
of layers leaves the merged result as it is without it, and the merge returns no error;
and when the case is found and the image values are generated, GenerateValues with nil
extra values, with empty extra values, with nil global test values or with nil case
values returns, without error, the merge of the layers that remain. -/
theorem absent_layer_identity (before after : List Layer) (L : Deps) (meta : CGMeta)
    (caseName testRegistry : String) (extra : Layer) (pre post : List TestCase)
    (tc : TestCase) (registry : Registry) (vals : Values) (imageVals : Layer)
    (hcases : meta.Test.Cases = pre ++ tc :: post)
    (hpre : ∀ c ∈ pre, c.Name ≠ caseName) (hname : tc.Name = caseName)
    (hreg : NewRegistry L testRegistry = (registry, none))
    (hwalk : meta.Images.Walk (testResolver L registry) = (vals, none))
    (hmerge : vals.Merge = (imageVals, none)) :
    mergeLayers .nil (before ++ none :: after) = mergeLayers .nil (before ++ after) ∧
    mergeLayers .nil (before ++ some .nil :: after) = mergeLayers .nil (before ++ after) ∧
    (mergeLayers .nil (before ++ none :: after)).2 = none ∧
    (mergeLayers .nil (before ++ some .nil :: after)).2 = none ∧
    (GenerateValues L meta caseName testRegistry extra).2 = none ∧
    GenerateValues L meta caseName testRegistry none =
      mergeLayers .nil [imageVals, meta.Test.Values, tc.Values] ∧
    GenerateValues L meta caseName testRegistry (some .nil) =
      mergeLayers .nil [imageVals, meta.Test.Values, tc.Values] ∧
    (meta.Test.Values = none →
      GenerateValues L meta caseName testRegistry extra =
        mergeLayers .nil [imageVals, tc.Values, extra]) ∧
    (tc.Values = none →
      GenerateValues L meta caseName testRegistry extra =
        mergeLayers .nil [imageVals, meta.Test.Values, extra]) := by
  have hgen := fun ex => GenerateValues_ok L meta caseName testRegistry ex pre post tc registry
    vals imageVals hcases hpre hname hreg hwalk hmerge
  refine ⟨mergeLayers_insert _ _ _ Merge_none, mergeLayers_insert _ _ _ Merge_empty,
    ?_, ?_, ?_, ?_, ?_, ?_, ?_⟩
  · rw [mergeLayers_eq]
  · rw [mergeLayers_eq]
  · rw [hgen, mergeLayers_eq]
  · rw [hgen]
    exact mergeLayers_insert [imageVals, meta.Test.Values, tc.Values] [] none Merge_none
  · rw [hgen]
    exact mergeLayers_insert [imageVals, meta.Test.Values, tc.Values] [] (some .nil)
      Merge_empty
  · intro hnil
    rw [hgen, hnil]
    exact mergeLayers_insert [imageVals] [tc.Values, extra] none Merge_none
  · intro hnil
    rw [hgen, hnil]
    exact mergeLayers_insert [imageVals, meta.Test.Values] [extra] none Merge_none

theorem absent_layer_identity_witness :
    GenerateValues sampleDeps sampleMeta "ha" "cgr.test" none =
      (some (.ofList [("image", .map (.ofList
          [("repository", .str "cgr.test/chainguard/test/api"), ("tag", .str "v0.0.0")])),
        ("mode", .str "global"), ("replicas", .int 3)]), none) := by
  have h := (absent_layer_identity [some precA] [some precB] sampleDeps sampleMeta "ha"
    "cgr.test" sampleExtra [⟨"default", none⟩] [] sampleCase ⟨false, "cgr.test"⟩
    (sampleMeta.Images.Walk (testResolver sampleDeps ⟨false, "cgr.test"⟩)).1
    (sampleMeta.Images.Walk (testResolver sampleDeps ⟨false, "cgr.test"⟩)).1.Merge.1
    rfl (by decide) rfl (by decide) rfl rfl).2.2.2.2.2.1
  rw [h]
  decide

/-! ## Errors of the pipeline -/

/-- C5, as stated, fails on the message. For the case name a, double quote, b, which no
case of the sample metadata has, GenerateValues returns a nil map and the error of a
case that is not found, and the message of that error does not contain the name: the
verb %q writes the double quote of the name with a backslash before it. -/
theorem case_not_found_message_counterexample :
    (∀ c ∈ sampleMeta.Test.Cases, c.Name ≠ quoteName) ∧
    GenerateValues sampleDeps sampleMeta quoteName "cgr.test" none =
      (none, some (GoError.new ("test case " ++
        String.mk [dquote, 'a', backslash, dquote, 'b', dquote] ++ " not found"))) ∧
    ¬ (quoteName.data <:+: ("test case " ++
        String.mk [dquote, 'a', backslash, dquote, 'b', dquote] ++ " not found").data) := by
  refine ⟨by decide, by decide, by decide⟩

/-- C5, amended. Case not found: when no case has a name equal to the requested name,
GenerateValues returns a nil map and the error whose message is the text test case,
the name as the verb %q quotes it, and the text not found, whatever the registry (valid
or not) and the extra values; the message contains the name itself when every rune of
the name is printable ASCII other than the double quote and the backslash. When some
case has that name, no error that GenerateValues returns has a message beginning with
test case. -/
theorem case_not_found (L : Deps) (meta : CGMeta) (caseName testRegistry : String)
    (extra : Layer) :
    ((∀ c ∈ meta.Test.Cases, c.Name ≠ caseName) →
      GenerateValues L meta caseName testRegistry extra =
          (none, some (GoError.new ("test case " ++ Quote L caseName ++ " not found"))) ∧
        (Quote L caseName).data <:+: ("test case " ++ Quote L caseName ++ " not found").data ∧
        ((∀ r ∈ caseName.data, plainRune r = true) →
          caseName.data <:+: ("test case " ++ Quote L caseName ++ " not found").data)) ∧
    ((∃ c ∈ meta.Test.Cases, c.Name = caseName) →
      ∀ err, (GenerateValues L meta caseName testRegistry extra).2 = some err →
        startsWith "test case " err.msg = false) := by
  constructor
  · intro hno
    refine ⟨GenerateValuesWith_notFound Merge L meta caseName testRegistry extra hno,
      ⟨"test case ".data, " not found".data, by simp [String.data_append]⟩,
      infix_caseNotFoundMsg L caseName⟩
  · intro hex err herr
    obtain ⟨tc, hfind⟩ := find_case_some _ caseName hex
    simp only [GenerateValues, GenerateValuesWith, hfind] at herr
    cases hgen : generateImageValues L (some meta.Images) testRegistry with
    | mk imageVals e =>
      cases e with
      | some inner =>
        rw [hgen] at herr
        simp only [Option.some.injEq] at herr
        rw [← herr]
        exact startsWith_case_generating inner
      | none =>
        rw [hgen] at herr
        obtain ⟨_, inner, hw⟩ := mergeLayersWith_error Merge _ _ err herr
        rw [hw]
        exact startsWith_case_merging inner

theorem case_not_found_witness :
    (GenerateValues sampleDeps sampleMeta "HA" "not/a/registry" sampleExtra =
        (none, some (GoError.new ("test case " ++ Quote sampleDeps "HA" ++ " not found"))) ∧
      "HA".data <:+: ("test case " ++ Quote sampleDeps "HA" ++ " not found").data) ∧
    ∀ err, (GenerateValues sampleDeps sampleMeta "ha" "cgr.test" sampleExtra).2 = some err →
      startsWith "test case " err.msg = false := by
  have hmiss := (case_not_found sampleDeps sampleMeta "HA" "not/a/registry" sampleExtra).1
    (by decide)
  have hfound := (case_not_found sampleDeps sampleMeta "ha" "cgr.test" sampleExtra).2
    ⟨sampleCase, by decide, rfl⟩
  exact ⟨⟨hmiss.1, hmiss.2.2 (by decide)⟩, hfound⟩

/-- C6. Invalid registry: when the test registry does not parse as a registry and the
requested case exists, GenerateValues returns a nil map and the error that wraps, under
generating image values, the error invalid marker base with the registry as %q quotes
it, which wraps the error of the parser; the message ends with the registry string
itself. The result is the same for every mapping of images, so also for a chart that
declares no image: the registry is parsed before any image is resolved. -/
theorem invalid_registry (L : Deps) (meta : CGMeta) (caseName testRegistry : String)
    (extra : Layer) (hbad : L.validAuthority testRegistry = false)
    (hcase : ∃ c ∈ meta.Test.Cases, c.Name = caseName) :
    GenerateValues L meta caseName testRegistry extra =
      (none, some (GoError.wrap "generating image values: "
        (invalidRegistryError L testRegistry))) ∧
    (GoError.wrap "generating image values: " (invalidRegistryError L testRegistry)).msg =
      "generating image values: " ++ ("invalid marker base " ++ Quote L testRegistry ++ ": " ++
        ("registries must be valid RFC 3986 URI authorities: " ++ testRegistry)) ∧
    testRegistry.data <:+:
      (GoError.wrap "generating image values: " (invalidRegistryError L testRegistry)).msg.data ∧
    ∀ images : Mapping,
      GenerateValues L ⟨images, meta.Test⟩ caseName testRegistry extra =
        GenerateValues L meta caseName testRegistry extra := by
  obtain ⟨tc, hfind⟩ := find_case_some _ caseName hcase
  have hall : ∀ images : Mapping,
      GenerateValues L ⟨images, meta.Test⟩ caseName testRegistry extra =
        (none, some (GoError.wrap "generating image values: "
          (invalidRegistryError L testRegistry))) := by
    intro images
    simp only [GenerateValues, GenerateValuesWith, hfind,
      generateImageValues_invalid L images testRegistry hbad]
  refine ⟨hall meta.Images, rfl, infix_invalidRegistry L testRegistry _, ?_⟩
  intro images
  rw [hall images, hall meta.Images]

theorem invalid_registry_witness :
    sampleDeps.validAuthority "not/a/registry" = false ∧
    GenerateValues sampleDeps sampleMeta "ha" "not/a/registry" sampleExtra =
      (none, some (GoError.wrap "generating image values: "
        (invalidRegistryError sampleDeps "not/a/registry"))) :=
  ⟨by decide,
    (invalid_registry sampleDeps sampleMeta "ha" "not/a/registry" sampleExtra (by decide)
      ⟨sampleCase, by decide, rfl⟩).1⟩

/-- C7. Failure atomicity and stage identification: whatever the call to mergo.Merge
returns, on every path where GenerateValues returns an error the returned map is nil,
and the error is of one of three forms that tell the stage: test case, the quoted
name, not found when no case has the name; an error wrapped under generating image
values when the image values failed; an error wrapped under merging values when a
merge failed. The three forms are told apart by how the message begins. -/
theorem failure_atomicity (merge : Entries → Layer → Entries × Option GoError) (L : Deps)
    (meta : CGMeta) (caseName testRegistry : String) (extra : Layer) (err : GoError)
    (herr : (GenerateValuesWith merge L meta caseName testRegistry extra).2 = some err) :
    (GenerateValuesWith merge L meta caseName testRegistry extra).1 = none ∧
    ((err = GoError.new ("test case " ++ Quote L caseName ++ " not found") ∧
        ∀ c ∈ meta.Test.Cases, c.Name ≠ caseName) ∨
      (∃ inner, err = GoError.wrap "generating image values: " inner ∧
        (generateImageValues L (some meta.Images) testRegistry).2 = some inner) ∨
      (∃ inner, err = GoError.wrap "merging values: " inner ∧
        (generateImageValues L (some meta.Images) testRegistry).2 = none)) ∧
    (∀ (name : String) (e1 e2 : GoError),
      startsWith "test case " ("test case " ++ Quote L name ++ " not found") = true ∧
      startsWith "test case " (GoError.wrap "generating image values: " e1).msg = false ∧
      startsWith "test case " (GoError.wrap "merging values: " e2).msg = false ∧
      startsWith "generating image values: "
        ("test case " ++ Quote L name ++ " not found") = false ∧
      startsWith "generating image values: "
        (GoError.wrap "generating image values: " e1).msg = true ∧
      startsWith "generating image values: "
        (GoError.wrap "merging values: " e2).msg = false ∧
      startsWith "merging values: " ("test case " ++ Quote L name ++ " not found") = false ∧
      startsWith "merging values: "
        (GoError.wrap "generating image values: " e1).msg = false ∧
      startsWith "merging values: " (GoError.wrap "merging values: " e2).msg = true) := by
  refine ⟨?_, ?_, fun name e1 e2 => ⟨rfl, rfl, rfl, rfl, rfl, rfl, rfl, rfl, rfl⟩⟩
  · simp only [GenerateValuesWith] at herr ⊢
    cases hfind : meta.Test.Cases.find? (fun c => c.Name == caseName) with
    | none => rfl
    | some tc =>
      rw [hfind] at herr
      cases hgen : generateImageValues L (some meta.Images) testRegistry with
      | mk imageVals e =>
        cases e with
        | some inner => rfl
        | none =>
          rw [hgen] at herr
          exact (mergeLayersWith_error merge _ _ err herr).1
  · simp only [GenerateValuesWith] at herr
    cases hfind : meta.Test.Cases.find? (fun c => c.Name == caseName) with
    | none =>
      rw [hfind] at herr
      simp only [Option.some.injEq] at herr
      refine Or.inl ⟨herr.symm, ?_⟩
      intro c hc hn
      rw [List.find?_eq_none] at hfind
      have := hfind c hc
      simp [hn] at this
    | some tc =>
      rw [hfind] at herr
      cases hgen : generateImageValues L (some meta.Images) testRegistry with
      | mk imageVals e =>
        cases e with
        | some inner =>
          rw [hgen] at herr
          simp only [Option.some.injEq] at herr
          exact Or.inr (Or.inl ⟨inner, herr.symm, rfl⟩)
        | none =>
          rw [hgen] at herr
          obtain ⟨_, inner, hw⟩ := mergeLayersWith_error merge _ _ err herr
          exact Or.inr (Or.inr ⟨inner, hw, rfl⟩)

theorem failure_atomicity_witness :
    (GenerateValuesWith failingMerge sampleDeps sampleMeta "ha" "cgr.test" sampleExtra).2 =
        some (GoError.wrap "merging values: "
          (GoError.new "src and dst must be of same type")) ∧
      (GenerateValuesWith failingMerge sampleDeps sampleMeta "ha" "cgr.test" sampleExtra).1 =
        none ∧
    (GenerateValues sampleDeps sampleMeta "ha" "not/a/registry" sampleExtra).1 = none :=
  ⟨by decide,
    (failure_atomicity failingMerge sampleDeps sampleMeta "ha" "cgr.test" sampleExtra
      (GoError.wrap "merging values: " (GoError.new "src and dst must be of same type"))
      (by decide)).1,
    (failure_atomicity Merge sampleDeps sampleMeta "ha" "not/a/registry" sampleExtra
      (GoError.wrap "generating image values: "
        (invalidRegistryError sampleDeps "not/a/registry")) (by decide)).1⟩

/-! ## The reference resolver -/

/-- C8. Resolver concatenation: for every registry, image identifier and token
sequence the resolver returns, with no error, the values of the tokens one after
another in order, the text of a token that is no marker and the resolved field of a
marker; so the empty sequence resolves to the empty string and a sequence made of two
parts resolves to the two resolved parts one after the other. -/
theorem resolver_concatenation (L : Deps) (registry : Registry) (imageID : String)
    (tokens ts1 ts2 : TokenList) :
    testResolver L registry imageID tokens =
      (concatAll (tokens.map (tokenValue L registry imageID)), none) ∧
    (∀ s, tokenValue L registry imageID (.text s) = s) ∧
    (∀ f, tokenValue L registry imageID (.field f) =
      resolveField f imageID (registry.Repo [DefaultTestRepository, ToLower L imageID])) ∧
    testResolver L registry imageID [] = ("", none) ∧
    (testResolver L registry imageID (ts1 ++ ts2)).1 =
      (testResolver L registry imageID ts1).1 ++ (testResolver L registry imageID ts2).1 := by
  refine ⟨testResolver_eq L registry imageID tokens, fun s => rfl, fun f => rfl, rfl, ?_⟩
  simp only [testResolver_eq, List.map_append, concatAll_append]

/-- C9. End-to-end scenario: with the test registry cgr.test, taken as a valid
authority, and the image identifier API, the marker RegistryRepo resolves to
cgr.test/chainguard/test/api, the marker Tag to the test tag v0.0.0, and the marker Ref
to cgr.test/chainguard/test/api@ followed by the digest string of API, which is sha256:
and the SHA-256 checksum of the bytes of API in hexadecimal, not that of api. -/
theorem end_to_end_api (L : Deps) (hvalid : L.validAuthority "cgr.test" = true) :
    ∃ registry, NewRegistry L DefaultTestRegistry = (registry, none) ∧
      testResolver L registry "API" [.field .RegistryRepo] =
        ("cgr.test/chainguard/test/api", none) ∧
      testResolver L registry "API" [.field .Tag] = ("v0.0.0", none) ∧
      DefaultTestTag = "v0.0.0" ∧
      testResolver L registry "API" [.field .Ref] =
        ("cgr.test/chainguard/test/api@" ++ TestDigest "API", none) ∧
      TestDigest "API" = "sha256" ++ ":" ++ hexEncode (Sha256.Sum256 [0x41, 0x50, 0x49]) ∧
      TestDigest "API" =
        "sha256:c8e5998f6a3955c21d858936fe05c69621724d7f825c6e17793002a0fa798bf9" ∧
      TestDigest "API" ≠ TestDigest "api" := by
  refine ⟨⟨false, "cgr.test"⟩, NewRegistry_cgr L hvalid, ?_, ?_, rfl, ?_, rfl, TestDigest_API,
    by decide⟩
  · rw [testResolver_field, ToLower_API, repo_API]
    decide
  · rw [testResolver_field]
    rfl
  · rw [testResolver_field, ToLower_API, repo_API, TestDigest_API]
    decide

theorem end_to_end_api_witness :
    sampleDeps.validAuthority "cgr.test" = true ∧
    ∃ registry, NewRegistry sampleDeps DefaultTestRegistry = (registry, none) ∧
      testResolver sampleDeps registry "API" [.field .Ref] =
        ("cgr.test/chainguard/test/api@" ++
          "sha256:c8e5998f6a3955c21d858936fe05c69621724d7f825c6e17793002a0fa798bf9", none) := by
  refine ⟨by decide, ?_⟩
  obtain ⟨registry, hreg, _, _, _, href, _, hdig, _⟩ := end_to_end_api sampleDeps (by decide)
  exact ⟨registry, hreg, by rw [href, hdig]⟩

/-- C10. Case normalization: for every registry and every two image identifiers that
are equal after lower-casing, the markers Registry, Repo and RegistryRepo resolve to
the same strings for both, and the repository is the one the registry makes from the
test repository and the lower-cased identifier. -/
theorem case_normalization (L : Deps) (registry : Registry) (id1 id2 : String)
    (hlower : ToLower L id1 = ToLower L id2) :
    testResolver L registry id1 [.field .Registry] =
      testResolver L registry id2 [.field .Registry] ∧
    testResolver L registry id1 [.field .Repo] =
      testResolver L registry id2 [.field .Repo] ∧
    testResolver L registry id1 [.field .RegistryRepo] =
      testResolver L registry id2 [.field .RegistryRepo] ∧
    (testResolver L registry id1 [.field .Registry]).1 =
      (registry.Repo [DefaultTestRepository, ToLower L id1]).RegistryStr ∧
    (testResolver L registry id1 [.field .Repo]).1 =
      (registry.Repo [DefaultTestRepository, ToLower L id1]).RepositoryStr ∧
    (testResolver L registry id1 [.field .RegistryRepo]).1 =
      (registry.Repo [DefaultTestRepository, ToLower L id1]).Name ∧
    (registry.Repo [DefaultTestRepository, ToLower L id1]).repository =
      Join ["chainguard/test", ToLower L id1] := by
  simp only [testResolver_field, hlower, resolveField]
  simp [Registry.Repo, DefaultTestRepository]

theorem case_normalization_witness :
    ToLower sampleDeps "API" = ToLower sampleDeps "Api" ∧
    testResolver sampleDeps ⟨false, "cgr.test"⟩ "API" [.field .RegistryRepo] =
      testResolver sampleDeps ⟨false, "cgr.test"⟩ "Api" [.field .RegistryRepo] ∧
    testResolver sampleDeps ⟨false, "cgr.test"⟩ "Api" [.field .RegistryRepo] =
      ("cgr.test/chainguard/test/api", none) :=
  ⟨by decide,
    (case_normalization sampleDeps ⟨false, "cgr.test"⟩ "API" "Api" (by decide)).2.2.1,
    by decide⟩

/-- C11. Unknown marker is empty string: for every value of the marker type that is
none of Registry, Repo, RegistryRepo, Tag, Digest, PseudoTag and Ref, resolveField
returns the empty string, the resolver returns no error, and a token sequence with such
a marker in it resolves to the same string as the sequence without that token. -/
theorem unknown_marker_empty (L : Deps) (registry : Registry) (imageID : String)
    (f : RefField) (before after : TokenList) (hf : f ∉ knownFields) :
    (∀ repo, resolveField f imageID repo = "") ∧
    testResolver L registry imageID [.field f] = ("", none) ∧
    (testResolver L registry imageID (before ++ .field f :: after)).2 = none ∧
    testResolver L registry imageID (before ++ .field f :: after) =
      testResolver L registry imageID (before ++ after) := by
  have hval : tokenValue L registry imageID (.field f) = "" :=
    resolveField_unknown f imageID _ hf
  refine ⟨fun repo => resolveField_unknown f imageID repo hf, ?_, ?_, ?_⟩
  · rw [testResolver_field, resolveField_unknown f imageID _ hf]
  · rw [testResolver_eq]
  · simp only [testResolver_eq, List.map_append, List.map_cons, concatAll_append, concatAll,
      hval, String.empty_append]

theorem unknown_marker_empty_witness :
    RefField.other 7 ∉ knownFields ∧
    testResolver sampleDeps ⟨false, "cgr.test"⟩ "API"
        [.text "a-", .field (.other 7), .field .Tag] =
      ("a-v0.0.0", none) := by
  refine ⟨by decide, ?_⟩
  have h := (unknown_marker_empty sampleDeps ⟨false, "cgr.test"⟩ "API" (.other 7)
    [.text "a-"] [.field .Tag] (by decide)).2.2.2
  exact h.trans (by decide)

/-- C12. Digest-family consistency within one image: for every registry and image
identifier the value of the marker PseudoTag is the value of Tag, an at sign and the
value of Digest, and the value of Ref ends with an at sign and the value of Digest; the
digest in all three is the test digest of the identifier. -/
theorem digest_family_consistency (L : Deps) (registry : Registry) (imageID : String) :
    (testResolver L registry imageID [.field .PseudoTag]).1 =
      (testResolver L registry imageID [.field .Tag]).1 ++ "@" ++
        (testResolver L registry imageID [.field .Digest]).1 ∧
    (∃ front, (testResolver L registry imageID [.field .Ref]).1 =
      front ++ ("@" ++ (testResolver L registry imageID [.field .Digest]).1)) ∧
    (testResolver L registry imageID [.field .Digest]).1 = TestDigest imageID ∧
    (testResolver L registry imageID [.field .PseudoTag]).1 =
      DefaultTestTag ++ "@" ++ TestDigest imageID := by
  obtain ⟨_, _, _, htag, hdig, hpseudo, href⟩ := testResolver_markers L registry imageID
  rw [htag, hdig, hpseudo, href]
  exact ⟨rfl, ⟨_, String.append_assoc _ _ _⟩, rfl, rfl⟩

/-- C13. Reference composition: for every registry that NewRegistry returns without
error and every image identifier, the value of the marker RegistryRepo is the value of
Registry, a slash and the value of Repo, and the value of Ref is the value of
RegistryRepo, an at sign and the value of Digest. -/
theorem reference_composition (L : Deps) (testRegistry : String) (registry : Registry)
    (imageID : String) (hreg : NewRegistry L testRegistry = (registry, none)) :
    (testResolver L registry imageID [.field .RegistryRepo]).1 =
      (testResolver L registry imageID [.field .Registry]).1 ++ "/" ++
        (testResolver L registry imageID [.field .Repo]).1 ∧
    (testResolver L registry imageID [.field .Ref]).1 =
      (testResolver L registry imageID [.field .RegistryRepo]).1 ++ "@" ++
        (testResolver L registry imageID [.field .Digest]).1 := by
  obtain ⟨hr, hp, hrr, _, hdig, _, href⟩ := testResolver_markers L registry imageID
  rw [hr, hp, hrr, hdig, href]
  exact ⟨Repository.Name_eq _ (NewRegistry_nonempty L testRegistry registry hreg), rfl⟩

theorem reference_composition_witness :
    NewRegistry sampleDeps "cgr.test" = (⟨false, "cgr.test"⟩, none) ∧
    (testResolver sampleDeps ⟨false, "cgr.test"⟩ "API" [.field .RegistryRepo]).1 =
      "cgr.test" ++ "/" ++ "chainguard/test/api" := by
  refine ⟨by decide, ?_⟩
  rw [(reference_composition sampleDeps "cgr.test" ⟨false, "cgr.test"⟩ "API" (by decide)).1]
  decide

/-- C14. Digest determinism: the test digest is a function of the image identifier
alone (TestDigest takes no other argument and equal identifiers give equal digests);
it has the canonical form sha256, a colon and 64 lower-case hexadecimal digits, the
checksum being 32 bytes; and the marker Digest resolves to it for every choice of
library tables, every registry and every token sequence around the marker. -/
theorem digest_determinism (L1 L2 : Deps) (reg1 reg2 : Registry) (imageID : String)
    (before after : TokenList) :
    (∀ other : String, other = imageID → TestDigest other = TestDigest imageID) ∧
    isCanonicalDigest (TestDigest imageID) = true ∧
    TestDigest imageID = "sha256:" ++ hexEncode (Sha256.Sum256 (bytesOf imageID)) ∧
    (Sha256.Sum256 (bytesOf imageID)).length = 32 ∧
    (∀ b ∈ Sha256.Sum256 (bytesOf imageID), b < 256) ∧
    testResolver L1 reg1 imageID [.field .Digest] = (TestDigest imageID, none) ∧
    testResolver L1 reg1 imageID [.field .Digest] =
      testResolver L2 reg2 imageID [.field .Digest] ∧
    (testResolver L1 reg1 imageID (before ++ .field .Digest :: after)).1 =
      (testResolver L1 reg1 imageID before).1 ++ TestDigest imageID ++
        (testResolver L1 reg1 imageID after).1 := by
  have hval : ∀ (L : Deps) (reg : Registry),
      tokenValue L reg imageID (.field .Digest) = TestDigest imageID := fun L reg =>
    (resolveField_values imageID
      (reg.Repo [DefaultTestRepository, ToLower L imageID])).2.2.2.2.1
  refine ⟨fun other h => by rw [h], TestDigest_canonical imageID, ?_, Sha256.Sum256_length _,
    Sha256.Sum256_bytes _, ?_, ?_, ?_⟩
  · simp only [TestDigest]
    rfl
  · rw [testResolver_field, (resolveField_values imageID _).2.2.2.2.1]
  · rw [testResolver_field, testResolver_field, (resolveField_values imageID _).2.2.2.2.1,
      (resolveField_values imageID _).2.2.2.2.1]
  · simp only [testResolver_eq, List.map_append, List.map_cons, concatAll_append, concatAll,
      hval, String.append_assoc]

/-- C16. Duplicate case names: when several cases have the requested name, GenerateValues
uses the first of them in the order of the collection: the result is the one for the
collection that holds that case alone, whatever cases come after it, and when the image
values are generated it is the merge with the values of that first case. -/
theorem duplicate_case_names (L : Deps) (images : Mapping) (testValues : Layer)
    (pre post : List TestCase) (tc : TestCase) (caseName testRegistry : String)
    (extra : Layer) (hpre : ∀ c ∈ pre, c.Name ≠ caseName) (hname : tc.Name = caseName) :
    GenerateValues L ⟨images, ⟨testValues, pre ++ tc :: post⟩⟩ caseName testRegistry extra =
      GenerateValues L ⟨images, ⟨testValues, [tc]⟩⟩ caseName testRegistry extra ∧
    (∀ post2 : List TestCase,
      GenerateValues L ⟨images, ⟨testValues, pre ++ tc :: post2⟩⟩ caseName testRegistry extra =
        GenerateValues L ⟨images, ⟨testValues, pre ++ tc :: post⟩⟩ caseName testRegistry
          extra) ∧
    (∀ (registry : Registry) (vals : Values) (imageVals : Layer),
      NewRegistry L testRegistry = (registry, none) →
      images.Walk (testResolver L registry) = (vals, none) →
      vals.Merge = (imageVals, none) →
      GenerateValues L ⟨images, ⟨testValues, pre ++ tc :: post⟩⟩ caseName testRegistry extra =
        mergeLayers .nil [imageVals, testValues, tc.Values, extra]) := by
  have hfirst := fun p => GenerateValues_first_case L images testValues pre p tc caseName
    testRegistry extra hpre hname
  refine ⟨hfirst post, fun post2 => (hfirst post2).trans (hfirst post).symm, ?_⟩
  intro registry vals imageVals hreg hwalk hmerge
  exact GenerateValues_ok L ⟨images, ⟨testValues, pre ++ tc :: post⟩⟩ caseName testRegistry
    extra pre post tc registry vals imageVals rfl hpre hname hreg hwalk hmerge

theorem duplicate_case_names_witness :
    GenerateValues sampleDeps duplicateMeta "ha" "cgr.test" none =
      (some (.ofList [("image", .map (.ofList
          [("repository", .str "cgr.test/chainguard/test/api"), ("tag", .str "v0.0.0")])),
        ("mode", .str "global"), ("replicas", .int 3)]), none) := by
  have h := (duplicate_case_names sampleDeps sampleMapping
    (some (.ofList [("replicas", .int 1), ("mode", .str "global")])) [⟨"default", none⟩]
    [⟨"ha", some (.ofList [("replicas", .int 5)])⟩] sampleCase "ha" "cgr.test" none
    (by decide) rfl).1
  exact h.trans (by decide)

/-- C17. Resolver totality: for every registry, valid or not, every image identifier,
the empty one among them, and every token sequence, the function that testResolver
returns gives a string and a nil error. -/
theorem resolver_totality (L : Deps) (registry : Registry) (imageID : String)
    (tokens : TokenList) :
    (testResolver L registry imageID tokens).2 = none ∧
    (∃ s, testResolver L registry imageID tokens = (s, none)) ∧
    (testResolver L registry "" tokens).2 = none := by
  refine ⟨?_, ⟨_, testResolver_eq L registry imageID tokens⟩, ?_⟩ <;> rw [testResolver_eq]

/-- C18. The digest uses the identifier as given and the repository its lower-cased
form: the marker Ref resolves to the name of the repository made from the lower-cased
identifier, an at sign and the test digest of the identifier itself; so for two
identifiers with the same lower-cased form Ref has the same repository part and the
digest of each spelling, and Digest resolves to the digest of each spelling. For API
and api on cgr.test the two values of Ref differ. -/
theorem digest_of_given_identifier (L : Deps) (registry : Registry) (id1 id2 : String)
    (hlower : ToLower L id1 = ToLower L id2) :
    (testResolver L registry id1 [.field .Ref]).1 =
      (registry.Repo [DefaultTestRepository, ToLower L id1]).Name ++ "@" ++ TestDigest id1 ∧
    (testResolver L registry id2 [.field .Ref]).1 =
      (registry.Repo [DefaultTestRepository, ToLower L id1]).Name ++ "@" ++ TestDigest id2 ∧
    (testResolver L registry id1 [.field .Digest]).1 = TestDigest id1 ∧
    (testResolver L registry id2 [.field .Digest]).1 = TestDigest id2 ∧
    (testResolver L ⟨false, "cgr.test"⟩ "API" [.field .Ref]).1 =
      "cgr.test/chainguard/test/api@" ++ TestDigest "API" ∧
    (testResolver L ⟨false, "cgr.test"⟩ "api" [.field .Ref]).1 =
      "cgr.test/chainguard/test/api@" ++ TestDigest "api" ∧
    TestDigest "API" ≠ TestDigest "api" ∧
    (testResolver L ⟨false, "cgr.test"⟩ "API" [.field .Ref]).1 ≠
      (testResolver L ⟨false, "cgr.test"⟩ "api" [.field .Ref]).1 := by
  have hAPI : (testResolver L ⟨false, "cgr.test"⟩ "API" [.field .Ref]).1 =
      "cgr.test/chainguard/test/api@" ++ TestDigest "API" := by
    rw [(testResolver_markers L _ "API").2.2.2.2.2.2, ToLower_API, repo_API]
    rfl
  have hapi : (testResolver L ⟨false, "cgr.test"⟩ "api" [.field .Ref]).1 =
      "cgr.test/chainguard/test/api@" ++ TestDigest "api" := by
    rw [(testResolver_markers L _ "api").2.2.2.2.2.2, ToLower_api, repo_API]
    rfl
  refine ⟨(testResolver_markers L registry id1).2.2.2.2.2.2, ?_,
    (testResolver_markers L registry id1).2.2.2.2.1,
    (testResolver_markers L registry id2).2.2.2.2.1, hAPI, hapi, ?_, ?_⟩
  · rw [hlower]
    exact (testResolver_markers L registry id2).2.2.2.2.2.2
  · rw [TestDigest_API, TestDigest_api]
    decide
  · rw [hAPI, hapi, TestDigest_API, TestDigest_api]
    decide

theorem digest_of_given_identifier_witness :
    ToLower sampleDeps "API" = ToLower sampleDeps "api" ∧
    (testResolver sampleDeps ⟨false, "cgr.test"⟩ "API" [.field .Digest]).1 =
      "sha256:c8e5998f6a3955c21d858936fe05c69621724d7f825c6e17793002a0fa798bf9" ∧
    (testResolver sampleDeps ⟨false, "cgr.test"⟩ "api" [.field .Digest]).1 =
      "sha256:14c2529eb4498c5d1ffd6915d05bf58a91bdda796af59f41d480d11c099d0479" := by
  have h := digest_of_given_identifier sampleDeps ⟨false, "cgr.test"⟩ "API" "api" (by decide)
  exact ⟨by decide, h.2.2.1.trans TestDigest_API, h.2.2.2.1.trans TestDigest_api⟩

/-! ## Inputs of the pipeline -/

/-- C15, on the code: GenerateValues writes into a nested map of its inputs. The global
test values hold a:1 under n and the case ha holds a:2 under n; the chart has no image.
The call for ha returns a:2 under n, as the merge of values does, but the result holds
at n the very map object of the global test values, and the merge of the case values
has written a:2 into it: the global test values read a:2 under n after the call. A
later call for the case default, which has no values, then returns a:2 under n, where
on inputs not yet used it returns a:1. -/
theorem generate_values_writes_inputs (fuel : Nat) :
    GenerateValuesRef (fuel + 2) sampleDeps aliasHeap aliasMeta "ha" "cgr.test" none =
      (aliasHeapAfter, some 5, none) ∧
    readLayer 8 aliasHeapAfter (some 5) =
      (GenerateValues sampleDeps aliasMetaPure "ha" "cgr.test" none).1 ∧
    readLayer 8 aliasHeapAfter (some 5) =
      some (.ofList [("n", .map (.ofList [("a", .int 2)]))]) ∧
    RMap.lookup "n" (aliasHeap.read 0) = some (.ref 1) ∧
    RMap.lookup "n" (aliasHeapAfter.read 5) = some (.ref 1) ∧
    readLayer 8 aliasHeap (some 0) = some (.ofList [("n", .map (.ofList [("a", .int 1)]))]) ∧
    readLayer 8 aliasHeapAfter (some 0) =
      some (.ofList [("n", .map (.ofList [("a", .int 2)]))]) ∧
    readLayer 8
        (GenerateValuesRef (fuel + 2) sampleDeps aliasHeapAfter aliasMeta "default" "cgr.test"
          none).1
        (GenerateValuesRef (fuel + 2) sampleDeps aliasHeapAfter aliasMeta "default" "cgr.test"
          none).2.1 =
      some (.ofList [("n", .map (.ofList [("a", .int 2)]))]) ∧
    readLayer 8
        (GenerateValuesRef (fuel + 2) sampleDeps aliasHeap aliasMeta "default" "cgr.test"
          none).1
        (GenerateValuesRef (fuel + 2) sampleDeps aliasHeap aliasMeta "default" "cgr.test"
          none).2.1 =
      some (.ofList [("n", .map (.ofList [("a", .int 1)]))]) ∧
    (GenerateValues sampleDeps aliasMetaPure "default" "cgr.test" none).1 =
      some (.ofList [("n", .map (.ofList [("a", .int 1)]))]) := by
  refine ⟨rfl, by decide, by decide, by decide, by decide, by decide, by decide, rfl, rfl,
    by decide⟩

end Chelm
